import Mathlib

/-!
Verification of the schema-evolution and multi-tenant authorization core of
the e-diary backend.

The development shallowly embeds the relevant Python source files:

* `app/deps.py`     — credential resolution (`admin_auth`, `AdminContext`)
* `app/routers/admin.py` — the authorization gate (`_ensure_project_allowed`)
   and tenant creation (`create_project`)
* `app/database.py` — the bootstrap migration engine (`get_or_create_db`,
   `_apply_schema_upgrades`, its inner `ensure_column`, and the two backfill
   loops)

Database rows are projected onto the fields the verified logic reads or
writes (primary key id, name, and the opaque token columns); the live schema
is modelled as a catalog assigning to each table name its list of column
names.  Randomness (`secrets.token_urlsafe`) is modelled as an explicit
token supply `gen : Nat → Nat → String` taking the byte count passed at the
call site and a freshness index.  Storage availability is modelled by an
environment predicate consulted once per driver-level statement, so that a
failing statement can be injected at any point of a run.
-/

namespace EDiary

/-- Python truthiness of an optional string coming from a nullable TEXT
column: `None` and the empty string are falsy, everything else is truthy. -/
def truthy : Option String → Bool
  | none => false
  | some s => !s.isEmpty

/-- Row of the `project` table, projected onto the columns the verified
logic touches (`id`, `name`, `admin_key`). -/
structure ProjectRow where
  id : Nat
  name : String
  admin_key : Option String
deriving DecidableEq

/-- Row of the `questionnaire` table, projected onto the columns the
verified logic touches (`id`, `assignment_key`). -/
structure QuestionnaireRow where
  id : Nat
  assignment_key : Option String
deriving DecidableEq

/-- Request-level errors raised by the auth layer (`fastapi.HTTPException`
with the corresponding status code). -/
inductive AuthError where
  | Unauthorized
  | Forbidden
  | BadRequest
  | Conflict
  | NotFound
deriving DecidableEq

/-- `AdminContext` from `app/deps.py`. -/
structure AdminContext where
  api_key : String
  is_super_admin : Bool
  project_ids : List Nat
deriving DecidableEq

/-- The SQL filter `Project.admin_key == x_admin_key` used by `admin_auth`:
the projects whose stored admin key equals the given credential (a SQL
`NULL` key never matches). -/
def matchingProjects (projects : List ProjectRow) (key : String) : List ProjectRow :=
  projects.filter (fun p => p.admin_key == some key)

/-- `admin_auth` from `app/deps.py` lines 24–42.  `ADMIN_API_KEY` is the
configured super-admin secret, `projects` the current content of the
`project` table, `method` the HTTP request method and `x_admin_key` the raw
credential header. -/
def admin_auth (ADMIN_API_KEY : String) (projects : List ProjectRow)
    (method : String) (x_admin_key : Option String) : Except AuthError AdminContext :=
  if method == "OPTIONS" then
    .ok { api_key := x_admin_key.getD "", is_super_admin := false, project_ids := [] }
  else if !(truthy x_admin_key) then
    .error .Unauthorized
  else
    let key := x_admin_key.getD ""
    if !ADMIN_API_KEY.isEmpty && (key == ADMIN_API_KEY) then
      .ok { api_key := key, is_super_admin := true, project_ids := projects.map (·.id) }
    else
      let ids := (matchingProjects projects key).map (·.id)
      if ids.isEmpty then .error .Unauthorized
      else .ok { api_key := key, is_super_admin := false, project_ids := ids }

/-- The authorization gate `_ensure_project_allowed` from
`app/routers/admin.py` lines 41–45. -/
def ensure_project_allowed (admin_ctx : AdminContext) (project_id : Option Nat) :
    Except AuthError Unit :=
  if admin_ctx.is_super_admin then .ok ()
  else
    match project_id with
    | none => .error .Forbidden
    | some pid => if admin_ctx.project_ids.contains pid then .ok () else .error .Forbidden

/-- `ProjectCreate` request body from `app/models.py`. -/
structure ProjectCreate where
  name : String
  description : Option String
  admin_key : Option String
deriving DecidableEq

/-- `create_project` from `app/routers/admin.py` lines 75–97.  `gen` is the
token supply standing for `secrets.token_urlsafe` (byte count, freshness
index); `next_id` is the primary key the storage backend would assign.
Returns the updated `project` table together with the created row. -/
def create_project (gen : Nat → Nat → String) (ctr : Nat) (admin_ctx : AdminContext)
    (data : ProjectCreate) (projects : List ProjectRow) (next_id : Nat) :
    Except AuthError (List ProjectRow × ProjectRow) :=
  if !admin_ctx.is_super_admin then
    .error .Forbidden
  else
    let name := data.name.trim
    if name.isEmpty then .error .BadRequest
    else if !(projects.filter (fun p => p.name == name)).isEmpty then .error .Conflict
    else
      let admin_key := (if truthy data.admin_key then data.admin_key.getD "" else gen 16 ctr).trim
      let project : ProjectRow := { id := next_id, name := name, admin_key := some admin_key }
      .ok (projects ++ [project], project)

/-- Errors surfaced by the storage backend during bootstrap
(`sqlalchemy.exc.OperationalError` variants and unavailability). -/
inductive DbError where
  | StorageUnavailable
  | NoSuchTable
  | NoSuchColumn
  | DuplicateColumn
deriving DecidableEq

/-- The live schema: each table name mapped to its list of column names. -/
abbrev Catalog := List (String × List String)

/-- Table existence in the live schema (`inspector.get_table_names()`). -/
def hasTable : Catalog → String → Bool
  | [], _ => false
  | e :: rest, t => (e.1 == t) || hasTable rest t

/-- Column names of a table in the live schema
(`inspector.get_columns(table)`); empty for a missing table. -/
def getCols : Catalog → String → List String
  | [], _ => []
  | e :: rest, t => if e.1 == t then e.2 else getCols rest t

/-- Column existence in the live schema. -/
def hasColumn (cat : Catalog) (t c : String) : Bool :=
  (getCols cat t).contains c

/-- Effect of a successful `ALTER TABLE t ADD COLUMN c` on the schema. -/
def addColumnCat : Catalog → String → String → Catalog
  | [], _, _ => []
  | e :: rest, t, c => (if e.1 == t then (e.1, e.2 ++ [c]) else e) :: addColumnCat rest t c

/-- Effect of a successful `CREATE TABLE` on the schema. -/
def createTable (cat : Catalog) (t : String) (cols : List String) : Catalog :=
  cat ++ [(t, cols)]

/-- `inspector.get_table_names()` as a list. -/
def tableNames (cat : Catalog) : List String :=
  cat.map (·.1)

/-- The `SQLModel.metadata` target schema declared in `app/models.py`:
every table, with its persisted columns in declaration order. -/
def targetSchema : List (String × List String) :=
  [("project", ["id", "name", "description", "admin_key", "created_at"]),
   ("choice", ["id", "question_id", "text", "value", "order"]),
   ("question", ["id", "questionnaire_id", "text", "type", "required", "order"]),
   ("assignment", ["id", "user_id", "questionnaire_id", "project_id", "due_at", "active"]),
   ("diaryentry", ["id", "user_id", "questionnaire_id", "project_id", "submitted_at", "answers"]),
   ("user", ["id", "email", "name", "participant_code", "project_id", "role", "is_active",
     "created_at"]),
   ("questionnaire", ["id", "name", "description", "version", "is_active", "created_at",
     "project_id", "assignment_key"]),
   ("task", ["id", "project_id", "user_id", "questionnaire_id", "title", "description",
     "task_type", "due_at", "reminder_minutes_before", "is_completed", "completed_at",
     "created_at"])]

/-- Columns of the `project` table, used by `project_table.create(conn)`. -/
def projectCols : List String :=
  ["id", "name", "description", "admin_key", "created_at"]

/-- `SQLModel.metadata.create_all` over an explicit table list: create each
listed table that is absent (`checkfirst`), counting the create-table
operations performed. -/
def create_allAux : List (String × List String) → Catalog × Nat → Catalog × Nat
  | [], acc => acc
  | tc :: rest, acc =>
    if hasTable acc.1 tc.1 then create_allAux rest acc
    else create_allAux rest (createTable acc.1 tc.1 tc.2, acc.2 + 1)

/-- `SQLModel.metadata.create_all(engine)` from `app/database.py` lines 39
and 45: create every missing table of the target schema. -/
def create_all (cat : Catalog) : Catalog × Nat :=
  create_allAux targetSchema (cat, 0)

/-- The persistent store: live schema plus the rows of the two tables the
backfill touches, projected onto the claim-relevant columns. -/
structure DBState where
  cat : Catalog
  projects : List ProjectRow
  questionnaires : List QuestionnaireRow
deriving DecidableEq

/-- Environment of a bootstrap run: `gen` is the `secrets.token_urlsafe`
supply (byte count, freshness index) and `storageOk n` says whether the
n-th driver-level statement of the run succeeds or fails with a storage
error. -/
structure Env where
  gen : Nat → Nat → String
  storageOk : Nat → Bool

/-- The environment of a run in which storage never fails. -/
def allOkEnv (gen : Nat → Nat → String) : Env :=
  { gen := gen, storageOk := fun _ => true }

/-- In-transaction state of `_apply_schema_upgrades`: the inspected
`table_names` set, the `column_cache`, the store seen by the open
transaction, the statement counter `tick`, the count `structOps` of
executed structural (create-table / add-column) operations, and the token
freshness counter `ctr`. -/
structure Txn where
  table_names : List String
  column_cache : List (String × List String)
  db : DBState
  tick : Nat
  structOps : Nat
  ctr : Nat
deriving DecidableEq

/-- Fresh transaction state over a store. -/
def mkTxn (db : DBState) : Txn :=
  { table_names := [], column_cache := [], db := db, tick := 0, structOps := 0, ctr := 0 }

/-- One driver-level statement: consumes a tick and fails when the
environment makes storage unavailable at that point. -/
def prim (env : Env) (x : Txn) : Except DbError Txn :=
  if env.storageOk x.tick then .ok { x with tick := x.tick + 1 }
  else .error .StorageUnavailable

/-- First cached column set of a table (`column_cache` lookup). -/
def cacheGet? : List (String × List String) → String → Option (List String)
  | [], _ => none
  | e :: rest, t => if e.1 == t then some e.2 else cacheGet? rest t

/-- Python `dict.setdefault`: store `cols` under `t` only when absent. -/
def cacheSetdefault (cache : List (String × List String)) (t : String) (cols : List String) :
    List (String × List String) :=
  match cacheGet? cache t with
  | some _ => cache
  | none => cache ++ [(t, cols)]

/-- Mutation of the cached set object (`cols.add(column)`): replace the
entry for `t`. -/
def cacheStore : List (String × List String) → String → List String →
    List (String × List String)
  | [], _, _ => []
  | e :: rest, t, v => (if e.1 == t then (e.1, v) else e) :: cacheStore rest t v

/-- Semantics of `ALTER TABLE t ADD COLUMN c`: fails when the table is
missing or the column already exists (SQLite "duplicate column name"),
otherwise appends the column. -/
def alter_add_column (cat : Catalog) (t c : String) : Except DbError Catalog :=
  if !hasTable cat t then .error .NoSuchTable
  else if hasColumn cat t c then .error .DuplicateColumn
  else .ok (addColumnCat cat t c)

/-- The inner `ensure_column` of `_apply_schema_upgrades`
(`app/database.py` lines 67–74): skip tables absent from the inspected
`table_names`; read the live columns (the `setdefault` default is evaluated
eagerly, one statement), preferring the cached set; if the column is not in
that set, issue the `ALTER TABLE` (one statement) and record it in the
cache.  The already-exists error of a duplicate `ALTER` is not handled. -/
def ensure_column (env : Env) (x : Txn) (t c : String) : Except DbError Txn :=
  if !(x.table_names.contains t) then .ok x
  else
    match prim env x with
    | .error e => .error e
    | .ok x1 =>
      let cols := (cacheGet? x1.column_cache t).getD (getCols x1.db.cat t)
      let x2 := { x1 with column_cache := cacheSetdefault x1.column_cache t cols }
      if cols.contains c then .ok x2
      else
        match prim env x2 with
        | .error e => .error e
        | .ok x3 =>
          match alter_add_column x3.db.cat t c with
          | .error e => .error e
          | .ok cat1 =>
            .ok { x3 with
                  db := { x3.db with cat := cat1 },
                  column_cache := cacheStore x3.column_cache t (cols ++ [c]),
                  structOps := x3.structOps + 1 }

/-- The sixteen `ensure_column` calls of `app/database.py` lines 76–91, in
source order. -/
def ensuredColumns : List (String × String) :=
  [("project", "admin_key"),
   ("user", "project_id"),
   ("questionnaire", "project_id"),
   ("questionnaire", "assignment_key"),
   ("assignment", "project_id"),
   ("diaryentry", "project_id"),
   ("task", "project_id"),
   ("task", "user_id"),
   ("task", "questionnaire_id"),
   ("task", "task_type"),
   ("task", "due_at"),
   ("task", "reminder_minutes_before"),
   ("task", "is_completed"),
   ("task", "completed_at"),
   ("task", "title"),
   ("task", "description")]

/-- Run a list of `ensure_column` calls in order. -/
def runEnsureColumns (env : Env) (pairs : List (String × String)) (x : Txn) :
    Except DbError Txn :=
  match pairs with
  | [] => .ok x
  | tc :: rest =>
    match ensure_column env x tc.1 tc.2 with
    | .error e => .error e
    | .ok x1 => runEnsureColumns env rest x1

/-- Byte count passed to `secrets.token_urlsafe` for a backfilled project
admin key (`app/database.py` line 100). -/
def project_admin_key_nbytes : Nat := 16

/-- Byte count passed to `secrets.token_urlsafe` for a backfilled
questionnaire assignment key (`app/database.py` line 110). -/
def questionnaire_assignment_key_nbytes : Nat := 8

/-- Entropy, in bits, of a token produced by `secrets.token_urlsafe nbytes`
(nbytes random bytes from the OS CSPRNG). -/
def token_urlsafe_entropy_bits (nbytes : Nat) : Nat := 8 * nbytes

/-- `UPDATE project SET admin_key = ? WHERE id = ?`. -/
def updateProjectKey (rows : List ProjectRow) (pid : Nat) (g : String) : List ProjectRow :=
  rows.map (fun r => if r.id == pid then { r with admin_key := some g } else r)

/-- `UPDATE questionnaire SET assignment_key = ? WHERE id = ?`. -/
def updateQuestionnaireKey (rows : List QuestionnaireRow) (qid : Nat) (g : String) :
    List QuestionnaireRow :=
  rows.map (fun r => if r.id == qid then { r with assignment_key := some g } else r)

/-- The project backfill loop of `app/database.py` lines 97–104, iterating
over the fetched `(id, admin_key)` snapshot: rows with a truthy key are
skipped, the others receive a freshly generated token by primary key (one
UPDATE statement each). -/
def projectBackfillLoop (env : Env) (fetched : List (Nat × Option String)) (x : Txn) :
    Except DbError Txn :=
  match fetched with
  | [] => .ok x
  | (pid, key) :: rest =>
    if truthy key then projectBackfillLoop env rest x
    else
      let generated := env.gen project_admin_key_nbytes x.ctr
      match prim env x with
      | .error e => .error e
      | .ok x1 =>
        projectBackfillLoop env rest
          { x1 with
            db := { x1.db with projects := updateProjectKey x1.db.projects pid generated },
            ctr := x1.ctr + 1 }

/-- The questionnaire backfill loop of `app/database.py` lines 107–114. -/
def questionnaireBackfillLoop (env : Env) (fetched : List (Nat × Option String)) (x : Txn) :
    Except DbError Txn :=
  match fetched with
  | [] => .ok x
  | (qid, key) :: rest =>
    if truthy key then questionnaireBackfillLoop env rest x
    else
      let generated := env.gen questionnaire_assignment_key_nbytes x.ctr
      match prim env x with
      | .error e => .error e
      | .ok x1 =>
        questionnaireBackfillLoop env rest
          { x1 with
            db := { x1.db with
              questionnaires := updateQuestionnaireKey x1.db.questionnaires qid generated },
            ctr := x1.ctr + 1 }

/-- `SELECT id, admin_key FROM project` followed by the project backfill
loop (`app/database.py` lines 96–104).  The SELECT is one statement and
fails if the table or the selected key column is missing. -/
def backfillProjects (env : Env) (x : Txn) : Except DbError Txn :=
  match prim env x with
  | .error e => .error e
  | .ok x1 =>
    if !hasTable x1.db.cat "project" then .error .NoSuchTable
    else if !hasColumn x1.db.cat "project" "admin_key" then .error .NoSuchColumn
    else projectBackfillLoop env (x1.db.projects.map (fun r => (r.id, r.admin_key))) x1

/-- `SELECT id, assignment_key FROM questionnaire` followed by the
questionnaire backfill loop (`app/database.py` lines 106–114). -/
def backfillQuestionnaires (env : Env) (x : Txn) : Except DbError Txn :=
  match prim env x with
  | .error e => .error e
  | .ok x1 =>
    if !hasTable x1.db.cat "questionnaire" then .error .NoSuchTable
    else if !hasColumn x1.db.cat "questionnaire" "assignment_key" then .error .NoSuchColumn
    else
      questionnaireBackfillLoop env
        (x1.db.questionnaires.map (fun r => (r.id, r.assignment_key))) x1

/-- Lines 60–63 of `app/database.py`: create the `project` table when it is
missing from the inspected names, adding it to the inspected set (one
statement). -/
def createProjectTableStep (env : Env) (x : Txn) : Except DbError Txn :=
  if !(x.table_names.contains "project") then
    match prim env x with
    | .error e => .error e
    | .ok y =>
      .ok { y with
            db := { y.db with cat := createTable y.db.cat "project" projectCols },
            table_names := y.table_names ++ ["project"],
            structOps := y.structOps + 1 }
  else .ok x

/-- Body of the `engine.begin()` transaction of `_apply_schema_upgrades`
(`app/database.py` lines 53–114): inspect the table names (one statement),
create the `project` table when missing, run the sixteen `ensure_column`
calls, then — unless the `project` table is absent — run the two
backfills. -/
def upgradeBody (env : Env) (x : Txn) : Except DbError Txn :=
  match prim env x with
  | .error e => .error e
  | .ok x1 =>
    let x2 := { x1 with table_names := tableNames x1.db.cat }
    match createProjectTableStep env x2 with
    | .error e => .error e
    | .ok x3 =>
      match runEnsureColumns env ensuredColumns x3 with
      | .error e => .error e
      | .ok x4 =>
        if !(x4.table_names.contains "project") then .ok x4
        else
          match backfillProjects env x4 with
          | .error e => .error e
          | .ok x5 => backfillQuestionnaires env x5

/-- `_apply_schema_upgrades` from `app/database.py` lines 53–114, with the
`with engine.begin()` transaction semantics: on success the transaction's
final store is committed; on any failure the store visible afterwards is
exactly the one from the start of the transaction. -/
def run_apply_schema_upgrades (env : Env) (db : DBState) : DBState × Except DbError Txn :=
  match upgradeBody env (mkTxn db) with
  | .ok x => (x.db, .ok x)
  | .error e => (db, .error e)

/-- `get_or_create_db` from `app/database.py` lines 29–50, instrumented:
`SQLModel.metadata.create_all(engine)` runs (and commits) outside the
upgrade transaction, then `_apply_schema_upgrades` runs inside its own
transaction.  Returns the visible store, the number of create-table
operations performed by `create_all`, and the transaction outcome.  (The
fresh-sqlite-file branch of the source coincides with this one on an empty
catalog.) -/
def get_or_create_db_run (env : Env) (db : DBState) : DBState × Nat × Except DbError Txn :=
  let c := create_all db.cat
  let db1 : DBState := { db with cat := c.1 }
  let r := run_apply_schema_upgrades env db1
  (r.1, c.2, r.2)

/-- `get_or_create_db` as the caller sees it: the visible store and either
the `created` flag or the bootstrap failure. -/
def get_or_create_db (env : Env) (db : DBState) : DBState × Except DbError Bool :=
  let has_tables := !db.cat.isEmpty
  let r := get_or_create_db_run env db
  match r.2.2 with
  | .ok _ => (r.1, .ok (!has_tables))
  | .error e => (r.1, .error e)

/-- The column cache agrees with the live catalog seen by the open
transaction — true throughout a single (non-concurrent) run, since every
`ALTER` is mirrored into the cache. -/
def CacheOk (x : Txn) : Prop :=
  ∀ t l, cacheGet? x.column_cache t = some l → l = getCols x.db.cat t

/-- Every inspected table name denotes an existing table of the live
catalog seen by the open transaction. -/
def TablesOk (x : Txn) : Prop :=
  ∀ t, x.table_names.contains t = true → hasTable x.db.cat t = true

/-- A transaction state left behind by a concurrently racing bootstrap
instance: the winner has already committed the `admin_key` column of the
`project` table, but the loser's column cache still reflects its earlier
inspection, which predates that commit. -/
def staleTxn : Txn :=
  { table_names := ["project"],
    column_cache := [("project", ["id", "name"])],
    db := { cat := [("project", ["id", "name", "admin_key"])], projects := [],
            questionnaires := [] },
    tick := 0, structOps := 0, ctr := 0 }

/-- A fresh, consistent transaction over a minimal legacy store whose
`project` table still lacks the `admin_key` column. -/
def freshLegacyTxn : Txn :=
  { table_names := ["project"],
    column_cache := [],
    db := { cat := [("project", ["id"])], projects := [], questionnaires := [] },
    tick := 0, structOps := 0, ctr := 0 }

/-- Pure model of the project backfill loop's row effect: rows with a
truthy admin key are unchanged, each other row receives the next token of
the supply; returns the rows and the advanced freshness counter. -/
def projectBackfillModel (gen : Nat → Nat → String) (ctr : Nat) :
    List ProjectRow → List ProjectRow × Nat
  | [] => ([], ctr)
  | r :: rest =>
    if truthy r.admin_key then
      let p := projectBackfillModel gen ctr rest
      (r :: p.1, p.2)
    else
      let p := projectBackfillModel gen (ctr + 1) rest
      ({ r with admin_key := some (gen project_admin_key_nbytes ctr) } :: p.1, p.2)

/-- Pure model of the questionnaire backfill loop's row effect. -/
def questionnaireBackfillModel (gen : Nat → Nat → String) (ctr : Nat) :
    List QuestionnaireRow → List QuestionnaireRow × Nat
  | [] => ([], ctr)
  | r :: rest =>
    if truthy r.assignment_key then
      let p := questionnaireBackfillModel gen ctr rest
      (r :: p.1, p.2)
    else
      let p := questionnaireBackfillModel gen (ctr + 1) rest
      ({ r with assignment_key := some (gen questionnaire_assignment_key_nbytes ctr) } :: p.1,
        p.2)

/-- Number of project rows strictly before index `i` whose admin key needs
backfill (null or empty). -/
def projectsNeedyBefore (rows : List ProjectRow) (i : Nat) : Nat :=
  ((rows.take i).filter (fun r => !truthy r.admin_key)).length

/-- Number of questionnaire rows strictly before index `i` whose assignment
key needs backfill (null or empty). -/
def questionnairesNeedyBefore (rows : List QuestionnaireRow) (i : Nat) : Nat :=
  ((rows.take i).filter (fun r => !truthy r.assignment_key)).length

/-- A sample mid-transaction state over a store holding a null, an
existing, and an empty-string token. -/
def sampleBackfillTxn : Txn :=
  { table_names := [],
    column_cache := [],
    db := { cat := [],
            projects := [⟨1, "T1", none⟩, ⟨2, "T2", some "k"⟩, ⟨3, "T3", some ""⟩],
            questionnaires := [⟨4, some ""⟩, ⟨5, some "ak"⟩] },
    tick := 0, structOps := 0, ctr := 0 }

end EDiary

deriving instance DecidableEq for Except

namespace EDiary

/-- A string different from the empty string has `isEmpty = false`. -/
theorem isEmpty_eq_false_of_ne {s : String} (h : s ≠ "") : s.isEmpty = false := by
  cases he : s.isEmpty
  · rfl
  · exact absurd ((String.isEmpty_iff s).mp he) h

/-- Claim C1: credential resolution contract of `admin_auth` (outside the
OPTIONS bypass): an absent or empty credential fails with `Unauthorized`;
when the configured super-admin secret is non-empty and equals the
credential, the result is super-admin scope listing every existing tenant
id; otherwise the scope is tenant-admin bound to exactly the tenant ids
whose stored admin key equals the credential, failing with `Unauthorized`
when that set is empty. -/
theorem admin_auth_resolution_contract (S : String) (ps : List ProjectRow)
    (method : String) (cred : Option String) (hm : method ≠ "OPTIONS") :
    (truthy cred = false → admin_auth S ps method cred = .error .Unauthorized) ∧
    (∀ k, cred = some k → S ≠ "" → k = S →
      ∃ ctx, admin_auth S ps method cred = .ok ctx ∧ ctx.is_super_admin = true ∧
        ctx.project_ids = ps.map (·.id) ∧ ∀ p ∈ ps, p.id ∈ ctx.project_ids) ∧
    (∀ k, cred = some k → k ≠ "" → (S = "" ∨ k ≠ S) →
      ((matchingProjects ps k).isEmpty = true →
        admin_auth S ps method cred = .error .Unauthorized) ∧
      ((matchingProjects ps k).isEmpty = false →
        ∃ ctx, admin_auth S ps method cred = .ok ctx ∧ ctx.is_super_admin = false ∧
          ctx.project_ids = (matchingProjects ps k).map (·.id) ∧
          ∀ t, t ∈ ctx.project_ids ↔ ∃ p ∈ ps, p.id = t ∧ p.admin_key = some k)) := by
  have hm' : (method == "OPTIONS") = false := by
    simp [hm]
  refine ⟨?_, ?_, ?_⟩
  · intro ht
    simp [admin_auth, hm', ht]
  · rintro k rfl hS rfl
    have hke : k.isEmpty = false := isEmpty_eq_false_of_ne hS
    have hk : truthy (some k) = true := by
      simp [truthy, hke]
    refine ⟨AdminContext.mk k true (ps.map (·.id)), ?_, rfl, rfl, ?_⟩
    · simp [admin_auth, hm', hk, hke]
    · intro p hp
      exact List.mem_map_of_mem (·.id) hp
  · rintro k rfl hk hS
    have hke : k.isEmpty = false := isEmpty_eq_false_of_ne hk
    have ht : truthy (some k) = true := by
      simp [truthy, hke]
    have hcond : (!S.isEmpty && (k == S)) = false := by
      rcases hS with hS | hS
      · have hSe : "".isEmpty = true := rfl
        simp [hS, hSe]
      · simp [hS]
    constructor
    · intro hempty
      have : ((matchingProjects ps k).map (·.id)).isEmpty = true := by
        cases h : matchingProjects ps k with
        | nil => simp [h]
        | cons a l => rw [h] at hempty; simp at hempty
      simp [admin_auth, hm', ht, hcond, this]
    · intro hnone
      refine ⟨AdminContext.mk k false ((matchingProjects ps k).map (·.id)), ?_, rfl, rfl, ?_⟩
      · have : ((matchingProjects ps k).map (·.id)).isEmpty = false := by
          cases h : matchingProjects ps k with
          | nil => rw [h] at hnone; simp at hnone
          | cons a l => rfl
        simp [admin_auth, hm', ht, hcond, this]
      · intro t
        constructor
        · intro htmem
          rcases List.mem_map.mp htmem with ⟨p, hpmem, hpid⟩
          rcases List.mem_filter.mp hpmem with ⟨hps, hkey⟩
          refine ⟨p, hps, hpid, ?_⟩
          simpa using hkey
        · rintro ⟨p, hps, hpid, hkey⟩
          refine List.mem_map.mpr ⟨p, ?_, hpid⟩
          refine List.mem_filter.mpr ⟨hps, ?_⟩
          simp [hkey]

/-- Claim C1 witness: with the spec test vector (tenants T1/T2 with keys
k1/k2, secret S), an absent credential resolves to `Unauthorized`. -/
theorem admin_auth_resolution_contract_witness :
    ("GET" : String) ≠ "OPTIONS" ∧
      admin_auth "S" [⟨1, "T1", some "k1"⟩, ⟨2, "T2", some "k2"⟩] "GET" none =
        .error .Unauthorized :=
  ⟨by decide, (admin_auth_resolution_contract "S"
      [⟨1, "T1", some "k1"⟩, ⟨2, "T2", some "k2"⟩] "GET" none (by decide)).1 rfl⟩

/-- Claim C5: the gate `_ensure_project_allowed` fails with `Forbidden`
exactly when the scope is not super-admin and the requested tenant id is
not a member of the scope's tenant-id set (an absent requested id is not a
member of any set). -/
theorem ensure_project_allowed_forbidden_iff (ctx : AdminContext) (pid : Option Nat) :
    ensure_project_allowed ctx pid = .error .Forbidden ↔
      (ctx.is_super_admin = false ∧ ∀ t, pid = some t → t ∉ ctx.project_ids) := by
  unfold ensure_project_allowed
  cases h : ctx.is_super_admin
  · cases pid with
    | none => simp [h]
    | some a =>
      by_cases ha : a ∈ ctx.project_ids
      · simp [h, List.elem_iff.mpr ha, ha]
      · have hc : ctx.project_ids.contains a = false := by
          simp [List.elem_iff, ha]
        simp [h, hc, ha]
  · simp [h]

/-- Claim C6: tenant creation is reserved to super-admin scope: every
tenant-admin (non-super) context is rejected with `Forbidden` regardless of
its tenant ids, and a successful creation implies super-admin scope. -/
theorem create_project_super_admin_only (gen : Nat → Nat → String) (ctr : Nat)
    (ctx : AdminContext) (data : ProjectCreate) (ps : List ProjectRow) (next_id : Nat) :
    (ctx.is_super_admin = false →
      create_project gen ctr ctx data ps next_id = .error .Forbidden) ∧
    (∀ out, create_project gen ctr ctx data ps next_id = .ok out →
      ctx.is_super_admin = true) := by
  cases h : ctx.is_super_admin
  · refine ⟨fun _ => ?_, fun out hout => ?_⟩
    · simp [create_project, h]
    · simp [create_project, h] at hout
  · refine ⟨fun hfalse => ?_, fun _ _ => rfl⟩
    simp [h] at hfalse

/-- Claim C6 witness: a tenant-admin context holding tenant 1 is rejected
when creating a project. -/
theorem create_project_super_admin_only_witness :
    (AdminContext.mk "k1" false [1]).is_super_admin = false ∧
      create_project (fun _ _ => "t") 0 ⟨"k1", false, [1]⟩ ⟨"New", none, none⟩ [] 7 =
        .error .Forbidden :=
  ⟨rfl, (create_project_super_admin_only (fun _ _ => "t") 0 ⟨"k1", false, [1]⟩
      ⟨"New", none, none⟩ [] 7).1 rfl⟩

/-- Claim C10: for every OPTIONS request, `admin_auth` returns (without
error) a context that is not super-admin and has an empty tenant-id set,
whatever the credential; and this is the only way resolution can succeed
while granting no tenant: outside OPTIONS, a successful resolution is
super-admin or has a non-empty tenant-id set. -/
theorem admin_auth_options_bypass (S : String) (ps : List ProjectRow) (cred : Option String) :
    (admin_auth S ps "OPTIONS" cred =
      .ok { api_key := cred.getD "", is_super_admin := false, project_ids := [] }) ∧
    (∀ method cred2 ctx, method ≠ "OPTIONS" →
      admin_auth S ps method cred2 = .ok ctx →
      ctx.is_super_admin = true ∨ ctx.project_ids ≠ []) := by
  constructor
  · simp [admin_auth]
  · intro method cred2 ctx hm hctx
    have hm' : (method == "OPTIONS") = false := by simp [hm]
    by_cases ht : truthy cred2 = true
    · by_cases hsup : (!S.isEmpty && (cred2.getD "" == S)) = true
      · left
        simp [admin_auth, hm', ht, hsup] at hctx
        rw [← hctx]
      · right
        have hsup' : (!S.isEmpty && (cred2.getD "" == S)) = false := by
          simpa using hsup
        by_cases he : ((matchingProjects ps (cred2.getD "")).map (·.id)).isEmpty = true
        · simp [admin_auth, hm', ht, hsup', he] at hctx
        · simp [admin_auth, hm', ht, hsup', he] at hctx
          rw [← hctx]
          simpa [List.isEmpty_iff] using he
    · have ht' : truthy cred2 = false := by simpa using ht
      simp [admin_auth, hm', ht'] at hctx

/-- Claim C10 witness: a GET request resolving the super-admin secret
yields a context that is super-admin or tenant-holding. -/
theorem admin_auth_options_bypass_witness :
    ("GET" : String) ≠ "OPTIONS" ∧
      ((AdminContext.mk "S" true [1]).is_super_admin = true ∨
        (AdminContext.mk "S" true [1]).project_ids ≠ []) :=
  ⟨by decide, (admin_auth_options_bypass "S" [⟨1, "T1", some "k1"⟩] none).2
      "GET" (some "S") ⟨"S", true, [1]⟩ (by decide) (by decide)⟩

/-- A statement always succeeds in the fault-free environment, consuming
one tick. -/
theorem prim_allOk (gen : Nat → Nat → String) (x : Txn) :
    prim (allOkEnv gen) x = .ok { x with tick := x.tick + 1 } := rfl

/-- `ALTER TABLE ADD COLUMN` does not change which tables exist. -/
theorem hasTable_addColumnCat (cat : Catalog) (t c u : String) :
    hasTable (addColumnCat cat t c) u = hasTable cat u := by
  induction cat with
  | nil => rfl
  | cons a l ih =>
    by_cases ha : a.1 = t
    · simp [addColumnCat, hasTable, ha, ih]
    · simp [addColumnCat, hasTable, ha, ih]

/-- A missing table has no columns. -/
theorem getCols_of_not_hasTable {cat : Catalog} {t : String} (h : hasTable cat t = false) :
    getCols cat t = [] := by
  induction cat with
  | nil => rfl
  | cons a l ih =>
    simp [hasTable] at h
    simp [getCols, h.1]
    exact ih (by simp [hasTable, h.2])

/-- Adding column `c` to existing table `t` appends it to that table's
column list. -/
theorem getCols_addColumnCat_self {cat : Catalog} {t : String} (c : String)
    (h : hasTable cat t = true) :
    getCols (addColumnCat cat t c) t = getCols cat t ++ [c] := by
  induction cat with
  | nil => simp [hasTable] at h
  | cons a l ih =>
    by_cases ha : a.1 = t
    · simp [addColumnCat, getCols, ha]
    · have h' : hasTable l t = true := by
        simpa [hasTable, ha] using h
      simp [addColumnCat, getCols, ha, ih h']

/-- Adding a column to table `t` leaves every other table's columns
unchanged. -/
theorem getCols_addColumnCat_ne {t u : String} (cat : Catalog) (c : String) (h : u ≠ t) :
    getCols (addColumnCat cat t c) u = getCols cat u := by
  induction cat with
  | nil => rfl
  | cons a l ih =>
    have htu : ¬ t = u := fun hh => h hh.symm
    by_cases ha : a.1 = t
    · simp [addColumnCat, getCols, ha, htu, ih]
    · by_cases hau : a.1 = u
      · simp [addColumnCat, getCols, ha, hau, h]
      · simp [addColumnCat, getCols, ha, hau, ih]

/-- Column existence is monotone under `ALTER TABLE ADD COLUMN`. -/
theorem hasColumn_addColumnCat_mono {cat : Catalog} {u d : String} (t c : String)
    (h : hasColumn cat u d = true) :
    hasColumn (addColumnCat cat t c) u d = true := by
  by_cases hu : u = t
  · subst hu
    cases htab : hasTable cat u with
    | false => rw [hasColumn, getCols_of_not_hasTable htab] at h; simp at h
    | true =>
      rw [hasColumn, getCols_addColumnCat_self c htab]
      rw [hasColumn] at h
      simp [List.elem_iff] at h ⊢
      exact Or.inl h
  · rw [hasColumn, getCols_addColumnCat_ne cat c hu]
    exact h

/-- The added column exists afterwards. -/
theorem hasColumn_addColumnCat_self {cat : Catalog} {t : String} (c : String)
    (h : hasTable cat t = true) :
    hasColumn (addColumnCat cat t c) t c = true := by
  rw [hasColumn, getCols_addColumnCat_self c h]
  simp [List.elem_iff]

/-- Table existence distributes over catalog concatenation. -/
theorem hasTable_append (c₁ c₂ : Catalog) (u : String) :
    hasTable (c₁ ++ c₂) u = (hasTable c₁ u || hasTable c₂ u) := by
  induction c₁ with
  | nil => simp [hasTable]
  | cons a l ih => simp [hasTable, ih, Bool.or_assoc]

/-- `CREATE TABLE` preserves existing tables and adds the new one. -/
theorem hasTable_createTable (cat : Catalog) (t : String) (cols : List String) (u : String) :
    hasTable (createTable cat t cols) u = (hasTable cat u || (t == u)) := by
  simp [createTable, hasTable_append, hasTable]

/-- `CREATE TABLE` leaves existing tables' columns unchanged. -/
theorem getCols_createTable_of_hasTable {cat : Catalog} {u : String}
    (t : String) (cols : List String) (h : hasTable cat u = true) :
    getCols (createTable cat t cols) u = getCols cat u := by
  induction cat with
  | nil => simp [hasTable] at h
  | cons a l ih =>
    by_cases hau : a.1 = u
    · simp [createTable, getCols, hau]
    · have h' : hasTable l u = true := by
        simpa [hasTable, hau] using h
      simpa [createTable, getCols, hau] using ih h'

/-- A freshly created table has exactly the declared columns. -/
theorem getCols_createTable_self {cat : Catalog} {t : String} (cols : List String)
    (h : hasTable cat t = false) :
    getCols (createTable cat t cols) t = cols := by
  induction cat with
  | nil => simp [createTable, getCols]
  | cons a l ih =>
    simp [hasTable] at h
    simpa [createTable, getCols, h.1] using ih (by simp [hasTable, h.2])

/-- `setdefault` keeps the cache when the key is present. -/
theorem cacheSetdefault_of_some {cache : List (String × List String)} {t : String}
    {l : List String} (cols : List String) (h : cacheGet? cache t = some l) :
    cacheSetdefault cache t cols = cache := by
  simp [cacheSetdefault, h]

/-- `setdefault` appends the entry when the key is absent. -/
theorem cacheSetdefault_of_none {cache : List (String × List String)} {t : String}
    (cols : List String) (h : cacheGet? cache t = none) :
    cacheSetdefault cache t cols = cache ++ [(t, cols)] := by
  simp [cacheSetdefault, h]

/-- Cache lookup distributes over appending a single entry. -/
theorem cacheGet?_append_single (cache : List (String × List String))
    (t u : String) (cols : List String) :
    cacheGet? (cache ++ [(t, cols)]) u =
      ((cacheGet? cache u).or (if t == u then some cols else none)) := by
  induction cache with
  | nil => simp [cacheGet?]
  | cons a l ih =>
    by_cases hau : a.1 = u
    · simp [cacheGet?, hau]
    · simp [cacheGet?, hau, ih]

/-- Overwriting key `t` of the cache hits exactly that key. -/
theorem cacheGet?_store_self {cache : List (String × List String)} {t : String}
    {l : List String} (v : List String) (h : cacheGet? cache t = some l) :
    cacheGet? (cacheStore cache t v) t = some v := by
  induction cache with
  | nil => simp [cacheGet?] at h
  | cons a rest ih =>
    by_cases ha : a.1 = t
    · simp [cacheStore, cacheGet?, ha]
    · simp [cacheGet?, ha] at h
      simpa [cacheStore, cacheGet?, ha] using ih h

/-- Overwriting key `t` of the cache leaves other keys unchanged. -/
theorem cacheGet?_store_ne {t u : String} (cache : List (String × List String))
    (v : List String) (h : u ≠ t) :
    cacheGet? (cacheStore cache t v) u = cacheGet? cache u := by
  induction cache with
  | nil => rfl
  | cons a rest ih =>
    have htu : ¬ t = u := fun hh => h hh.symm
    by_cases ha : a.1 = t
    · simp [cacheStore, cacheGet?, ha, htu, ih]
    · by_cases hau : a.1 = u
      · simp [cacheStore, cacheGet?, ha, hau, h]
      · simp [cacheStore, cacheGet?, ha, hau, ih]

/-- Within a single consistent run with available storage, `ensure_column`
always succeeds: it preserves the invariants, the inspected names, the rows
and the token counter; it removes no table and no column; it establishes
the requested column whenever its table was inspected; and it performs no
structural operation when the column is already present. -/
theorem ensure_column_ok (gen : Nat → Nat → String) (x : Txn) (t c : String)
    (hc : CacheOk x) (ht : TablesOk x) :
    ∃ x', ensure_column (allOkEnv gen) x t c = .ok x' ∧
      CacheOk x' ∧ TablesOk x' ∧
      x'.table_names = x.table_names ∧
      x'.db.projects = x.db.projects ∧
      x'.db.questionnaires = x.db.questionnaires ∧
      x'.ctr = x.ctr ∧
      (∀ u, hasTable x'.db.cat u = hasTable x.db.cat u) ∧
      (∀ u d, hasColumn x.db.cat u d = true → hasColumn x'.db.cat u d = true) ∧
      (x.table_names.contains t = true → hasColumn x'.db.cat t c = true) ∧
      ((x.table_names.contains t = true → hasColumn x.db.cat t c = true) →
        x'.db.cat = x.db.cat ∧ x'.structOps = x.structOps) := by
  by_cases h1 : x.table_names.contains t = true
  · have htab : hasTable x.db.cat t = true := ht t h1
    have hmem : t ∈ x.table_names := List.elem_iff.mp h1
    cases hcg : cacheGet? x.column_cache t with
    | some l =>
      have hl : l = getCols x.db.cat t := hc t l hcg
      by_cases h2 : l.contains c = true
      · have hmc : c ∈ l := List.elem_iff.mp h2
        refine ⟨{ x with tick := x.tick + 1 }, ?_, hc, ht, rfl, rfl, rfl, rfl,
          fun u => rfl, fun u d h => h, ?_, fun _ => ⟨rfl, rfl⟩⟩
        · simp [ensure_column, prim, allOkEnv, h1, hcg, h2, cacheSetdefault, hmem, hmc]
        · intro _
          rw [hasColumn, ← hl]
          exact h2
      · have h2' : l.contains c = false := by simpa using h2
        have hmc : c ∉ l := by
          intro hm
          have hx : l.contains c = true := List.elem_iff.mpr hm
          rw [hx] at h2'
          cases h2'
        have hcolf : hasColumn x.db.cat t c = false := by
          rw [hasColumn, ← hl]
          exact h2'
        refine ⟨{ x with
            tick := x.tick + 1 + 1,
            column_cache := cacheStore x.column_cache t (l ++ [c]),
            db := { x.db with cat := addColumnCat x.db.cat t c },
            structOps := x.structOps + 1 }, ?_, ?_, ?_, rfl, rfl, rfl, rfl,
          ?_, ?_, ?_, ?_⟩
        · simp [ensure_column, prim, allOkEnv, h1, hcg, h2', cacheSetdefault,
            alter_add_column, htab, hcolf, hmem, hmc]
        · intro u l' hgu
          by_cases hu : u = t
          · subst hu
            rw [cacheGet?_store_self (l ++ [c]) hcg] at hgu
            cases hgu
            rw [getCols_addColumnCat_self c htab, ← hl]
          · rw [cacheGet?_store_ne x.column_cache (l ++ [c]) hu] at hgu
            rw [getCols_addColumnCat_ne x.db.cat c hu]
            exact hc u l' hgu
        · intro u hu
          rw [hasTable_addColumnCat]
          exact ht u hu
        · intro u
          exact hasTable_addColumnCat x.db.cat t c u
        · intro u d h
          exact hasColumn_addColumnCat_mono t c h
        · intro _
          exact hasColumn_addColumnCat_self c htab
        · intro hno
          rw [hno h1] at hcolf
          cases hcolf
    | none =>
      by_cases h2 : (getCols x.db.cat t).contains c = true
      · have hmc : c ∈ getCols x.db.cat t := List.elem_iff.mp h2
        refine ⟨{ x with
            tick := x.tick + 1,
            column_cache := x.column_cache ++ [(t, getCols x.db.cat t)] }, ?_, ?_, ht,
          rfl, rfl, rfl, rfl, fun u => rfl, fun u d h => h, ?_, fun _ => ⟨rfl, rfl⟩⟩
        · simp [ensure_column, prim, allOkEnv, h1, hcg, h2, cacheSetdefault, hmem, hmc]
        · intro u l' hgu
          show l' = getCols x.db.cat u
          rw [cacheGet?_append_single] at hgu
          cases hgc : cacheGet? x.column_cache u with
          | some l2 =>
            rw [hgc] at hgu
            simp only [Option.or] at hgu
            cases hgu
            exact hc u _ hgc
          | none =>
            rw [hgc] at hgu
            simp only [Option.or] at hgu
            by_cases hut : t = u
            · rw [hut] at hgu
              simp at hgu
              rw [hgu]
            · have hut' : (t == u) = false := by simp [hut]
              rw [hut'] at hgu
              cases hgu
        · intro _
          exact h2
      · have h2' : (getCols x.db.cat t).contains c = false := by simpa using h2
        have hmc : c ∉ getCols x.db.cat t := by
          intro hm
          have hx : (getCols x.db.cat t).contains c = true := List.elem_iff.mpr hm
          rw [hx] at h2'
          cases h2'
        have h2'' : (getCols x.db.cat t).contains c = false := by simpa using h2
        have hcolf : hasColumn x.db.cat t c = false := h2''
        refine ⟨{ x with
            tick := x.tick + 1 + 1,
            column_cache :=
              cacheStore (x.column_cache ++ [(t, getCols x.db.cat t)]) t
                (getCols x.db.cat t ++ [c]),
            db := { x.db with cat := addColumnCat x.db.cat t c },
            structOps := x.structOps + 1 }, ?_, ?_, ?_, rfl, rfl, rfl, rfl,
          ?_, ?_, ?_, ?_⟩
        · simp [ensure_column, prim, allOkEnv, h1, hcg, h2', cacheSetdefault,
            alter_add_column, htab, hcolf, hmem, hmc]
        · intro u l' hgu
          show l' = getCols (addColumnCat x.db.cat t c) u
          have hsel : cacheGet? (x.column_cache ++ [(t, getCols x.db.cat t)]) t =
              some (getCols x.db.cat t) := by
            rw [cacheGet?_append_single, hcg]
            simp [Option.or]
          by_cases hu : u = t
          · rw [hu] at hgu ⊢
            rw [cacheGet?_store_self (getCols x.db.cat t ++ [c]) hsel] at hgu
            cases hgu
            rw [getCols_addColumnCat_self c htab]
          · rw [cacheGet?_store_ne _ _ hu, cacheGet?_append_single] at hgu
            have hut : (t == u) = false := by
              simp
              exact fun hh => hu hh.symm
            rw [hut] at hgu
            simp only [Option.or] at hgu
            cases hgc : cacheGet? x.column_cache u with
            | some l2 =>
              rw [hgc] at hgu
              simp only [Option.or] at hgu
              cases hgu
              rw [getCols_addColumnCat_ne x.db.cat c hu]
              exact hc u _ hgc
            | none =>
              rw [hgc] at hgu
              simp only [Option.or] at hgu
              cases hgu
        · intro u hu
          rw [hasTable_addColumnCat]
          exact ht u hu
        · intro u
          exact hasTable_addColumnCat x.db.cat t c u
        · intro u d h
          exact hasColumn_addColumnCat_mono t c h
        · intro _
          exact hasColumn_addColumnCat_self c htab
        · intro hno
          rw [hno h1] at hcolf
          cases hcolf
  · have h1' : x.table_names.contains t = false := by simpa using h1
    have hnot : ¬ t ∈ x.table_names := by
      intro hm
      have hx : x.table_names.contains t = true := List.elem_iff.mpr hm
      rw [h1'] at hx
      cases hx
    refine ⟨x, ?_, hc, ht, rfl, rfl, rfl, rfl, fun u => rfl, fun u d h => h, ?_, ?_⟩
    · simp [ensure_column, hnot]
    · intro hcon
      rw [h1'] at hcon
      cases hcon
    · intro _
      exact ⟨rfl, rfl⟩

/-- Claim C7 counterexample: when a racing instance has already committed
the column (so the live schema holds it but the loser's cached inspection
does not), the duplicate `ALTER TABLE` raises the already-exists condition
and `ensure_column` propagates it as a fatal error instead of treating it
as success. -/
theorem ensure_column_duplicate_fatal_counterexample :
    ensure_column (allOkEnv fun _ _ => "") staleTxn "project" "admin_key" =
      .error .DuplicateColumn ∧
    (ensure_column (allOkEnv fun _ _ => "") staleTxn "project" "admin_key").isOk = false := by
  constructor
  · rfl
  · rfl

/-- Claim C7 (amended): `ensure_column` performs no error handling of the
already-exists condition; what holds instead is that within a single
run — where the column cache agrees with the live schema and every
inspected table exists — the duplicate `ALTER` is never attempted, so
`ensure_column` always succeeds. -/
theorem ensure_column_single_run_ok (gen : Nat → Nat → String) (x : Txn)
    (t c : String) (hc : CacheOk x) (ht : TablesOk x) :
    ∃ x', ensure_column (allOkEnv gen) x t c = .ok x' := by
  obtain ⟨x', hrun, _⟩ := ensure_column_ok gen x t c hc ht
  exact ⟨x', hrun⟩

/-- Claim C7 witness: a fresh consistent transaction adding `admin_key` to
a legacy `project` table succeeds. -/
theorem ensure_column_single_run_ok_witness :
    CacheOk freshLegacyTxn ∧ TablesOk freshLegacyTxn ∧
    ∃ x', ensure_column (allOkEnv fun _ _ => "t") freshLegacyTxn "project" "admin_key" =
      .ok x' := by
  have hc : CacheOk freshLegacyTxn := by
    intro t l h
    cases h
  have ht : TablesOk freshLegacyTxn := by
    intro u hu
    have hm : u ∈ ["project"] := List.elem_iff.mp hu
    rw [List.mem_singleton.mp hm]
    decide
  exact ⟨hc, ht, ensure_column_single_run_ok (fun _ _ => "t") freshLegacyTxn
    "project" "admin_key" hc ht⟩

/-- Claim C8 counterexample: the token generated for a backfilled
questionnaire assignment key draws `secrets.token_urlsafe(8)` — only 64
bits of entropy, below the required 96. -/
theorem token_entropy_counterexample :
    token_urlsafe_entropy_bits questionnaire_assignment_key_nbytes = 64 ∧
    ¬ 96 ≤ token_urlsafe_entropy_bits questionnaire_assignment_key_nbytes := by
  decide

/-- Claim C8 (amended): every backfill token comes from the
`secrets.token_urlsafe` CSPRNG supply; tenant admin keys carry 128 bits
(16 bytes, ≥ 96) but questionnaire assignment keys carry only 64 bits
(8 bytes, < 96).  The bootstrap run on a legacy store writes exactly those
two token kinds with those byte counts. -/
theorem token_entropy_amended :
    token_urlsafe_entropy_bits project_admin_key_nbytes = 128 ∧
    96 ≤ token_urlsafe_entropy_bits project_admin_key_nbytes ∧
    token_urlsafe_entropy_bits questionnaire_assignment_key_nbytes = 64 ∧
    token_urlsafe_entropy_bits questionnaire_assignment_key_nbytes < 96 ∧
    (∀ gen : Nat → Nat → String,
      (get_or_create_db_run (allOkEnv gen)
        { cat := targetSchema,
          projects := [{ id := 1, name := "T1", admin_key := none }],
          questionnaires := [{ id := 2, assignment_key := none }] }).1.projects =
        [{ id := 1, name := "T1", admin_key := some (gen project_admin_key_nbytes 0) }] ∧
      (get_or_create_db_run (allOkEnv gen)
        { cat := targetSchema,
          projects := [{ id := 1, name := "T1", admin_key := none }],
          questionnaires := [{ id := 2, assignment_key := none }] }).1.questionnaires =
        [{ id := 2, assignment_key := some (gen questionnaire_assignment_key_nbytes 1) }]) := by
  refine ⟨rfl, by decide, rfl, by decide, fun gen => ⟨rfl, rfl⟩⟩

/-- An UPDATE keyed by an id no row holds is the identity. -/
theorem updateProjectKey_not_mem {rows : List ProjectRow} {pid : Nat} (g : String)
    (h : ∀ d ∈ rows, d.id ≠ pid) :
    updateProjectKey rows pid g = rows := by
  induction rows with
  | nil => rfl
  | cons a l ih =>
    have ha : ¬ (a.id = pid) := h a (List.mem_cons_self a l)
    have ih' := ih (fun d hd => h d (List.mem_cons_of_mem a hd))
    simp [updateProjectKey, ha] at ih' ⊢
    exact ih'

/-- `updateProjectKey` distributes over append. -/
theorem updateProjectKey_append (l₁ l₂ : List ProjectRow) (pid : Nat) (g : String) :
    updateProjectKey (l₁ ++ l₂) pid g =
      updateProjectKey l₁ pid g ++ updateProjectKey l₂ pid g :=
  List.map_append _ _ _

/-- With unique ids, the UPDATE keyed by `r.id` rewrites exactly row `r`. -/
theorem updateProjectKey_split (done rest : List ProjectRow) (r : ProjectRow) (g : String)
    (hdone : ∀ d ∈ done, d.id ≠ r.id) (hrest : ∀ d ∈ rest, d.id ≠ r.id) :
    updateProjectKey (done ++ r :: rest) r.id g =
      done ++ { r with admin_key := some g } :: rest := by
  rw [updateProjectKey_append, updateProjectKey_not_mem g hdone]
  show done ++ ((if r.id == r.id then { r with admin_key := some g } else r) ::
    updateProjectKey rest r.id g) = _
  rw [updateProjectKey_not_mem g hrest]
  simp

/-- The backfill model preserves the number of rows. -/
theorem projectBackfillModel_length (gen : Nat → Nat → String) (rows : List ProjectRow) :
    ∀ ctr, (projectBackfillModel gen ctr rows).1.length = rows.length := by
  induction rows with
  | nil => intro ctr; rfl
  | cons r rest ih =>
    intro ctr
    by_cases hr : truthy r.admin_key
    · simp [projectBackfillModel, hr, ih]
    · simp [projectBackfillModel, hr, ih]

/-- Needy-row count at index zero. -/
theorem projectsNeedyBefore_zero (rows : List ProjectRow) :
    projectsNeedyBefore rows 0 = 0 := rfl

/-- Needy-row count past a truthy head. -/
theorem projectsNeedyBefore_cons_truthy {r0 : ProjectRow} (rest : List ProjectRow) (i : Nat)
    (h : truthy r0.admin_key = true) :
    projectsNeedyBefore (r0 :: rest) (i + 1) = projectsNeedyBefore rest i := by
  simp [projectsNeedyBefore, h]

/-- Needy-row count past a needy head. -/
theorem projectsNeedyBefore_cons_needy {r0 : ProjectRow} (rest : List ProjectRow) (i : Nat)
    (h : truthy r0.admin_key = false) :
    projectsNeedyBefore (r0 :: rest) (i + 1) = projectsNeedyBefore rest i + 1 := by
  simp [projectsNeedyBefore, h]

/-- Row-wise characterisation of the backfill model: a row with a truthy
key is unchanged; the i-th needy row receives token number
`ctr + (needy rows before it)`. -/
theorem projectBackfillModel_get? (gen : Nat → Nat → String) (rows : List ProjectRow) :
    ∀ ctr i r, rows.get? i = some r →
      (projectBackfillModel gen ctr rows).1.get? i =
        some (if truthy r.admin_key then r
          else { r with admin_key := some (gen project_admin_key_nbytes (ctr + projectsNeedyBefore rows i)) }) := by
  induction rows with
  | nil => intro ctr i r h; cases h
  | cons r0 rest ih =>
    intro ctr i r h
    cases i with
    | zero =>
      have hr0 : r = r0 := by
        simpa using h.symm
      subst hr0
      by_cases hr : truthy r.admin_key
      · simp [projectBackfillModel, hr]
      · simp [projectBackfillModel, hr, projectsNeedyBefore_zero]
    | succ i =>
      have h' : rest.get? i = some r := by simpa using h
      by_cases hr0 : truthy r0.admin_key
      · have := ih ctr i r h'
        rw [projectsNeedyBefore_cons_truthy rest i hr0]
        simpa [projectBackfillModel, hr0] using this
      · have hr0' : truthy r0.admin_key = false := by simpa using hr0
        have := ih (ctr + 1) i r h'
        rw [projectsNeedyBefore_cons_needy rest i hr0']
        have harith : ctr + (projectsNeedyBefore rest i + 1) =
            ctr + 1 + projectsNeedyBefore rest i := by omega
        rw [harith]
        simpa [projectBackfillModel, hr0'] using this

/-- On rows that all hold truthy keys the backfill model is the
identity. -/
theorem projectBackfillModel_all_truthy (gen : Nat → Nat → String)
    (rows : List ProjectRow) :
    ∀ ctr, (∀ r ∈ rows, truthy r.admin_key = true) →
      projectBackfillModel gen ctr rows = (rows, ctr) := by
  induction rows with
  | nil => intro ctr _; rfl
  | cons r rest ih =>
    intro ctr h
    have hr : truthy r.admin_key = true := h r (List.mem_cons_self r rest)
    have hrest := ih ctr (fun s hs => h s (List.mem_cons_of_mem r hs))
    simp [projectBackfillModel, hr, hrest]

/-- When the supply yields non-empty tokens, every row holds a truthy key
after the backfill model runs. -/
theorem projectBackfillModel_truthy_after (gen : Nat → Nat → String)
    (rows : List ProjectRow) (hgen : ∀ n, gen project_admin_key_nbytes n ≠ "") :
    ∀ ctr r, r ∈ (projectBackfillModel gen ctr rows).1 → truthy r.admin_key = true := by
  induction rows with
  | nil => intro ctr r h; cases h
  | cons r0 rest ih =>
    intro ctr r h
    by_cases hr0 : truthy r0.admin_key
    · rw [projectBackfillModel] at h
      rw [if_pos hr0] at h
      rcases List.mem_cons.mp h with rfl | h
      · exact hr0
      · exact ih ctr r h
    · rw [projectBackfillModel] at h
      rw [if_neg hr0] at h
      rcases List.mem_cons.mp h with rfl | h
      · simp [truthy, isEmpty_eq_false_of_ne (hgen ctr)]
      · exact ih (ctr + 1) r h

/-- On an all-truthy snapshot the project backfill loop does nothing at
all. -/
theorem projectBackfillLoop_all_truthy (env : Env) (rows : List ProjectRow) (x : Txn)
    (h : ∀ r ∈ rows, truthy r.admin_key = true) :
    projectBackfillLoop env (rows.map fun r => (r.id, r.admin_key)) x = .ok x := by
  induction rows with
  | nil => rfl
  | cons r rest ih =>
    have hr : truthy r.admin_key = true := h r (List.mem_cons_self r rest)
    have ihr := ih (fun s hs => h s (List.mem_cons_of_mem r hs))
    simpa [projectBackfillLoop, hr] using ihr

/-- The project backfill loop equals the backfill model on the rows, and
touches nothing else of the transaction state but the tick. -/
theorem projectBackfillLoop_split (gen : Nat → Nat → String) (todo : List ProjectRow) :
    ∀ (done : List ProjectRow) (x : Txn),
      x.db.projects = done ++ todo →
      (∀ r ∈ todo, ∀ d ∈ done, d.id ≠ r.id) →
      (todo.map (·.id)).Nodup →
      ∃ tick',
        projectBackfillLoop (allOkEnv gen) (todo.map fun r => (r.id, r.admin_key)) x =
          .ok { x with
                db := { x.db with
                  projects := done ++ (projectBackfillModel gen x.ctr todo).1 },
                ctr := (projectBackfillModel gen x.ctr todo).2,
                tick := tick' } := by
  induction todo with
  | nil =>
    intro done x hx _ _
    refine ⟨x.tick, ?_⟩
    have hx' : done ++ (projectBackfillModel gen x.ctr []).1 = x.db.projects := by
      rw [hx]
      rfl
    show Except.ok x = _
    rw [hx']
    rfl
  | cons r rest ih =>
    intro done x hx hdisj hnodup
    have hpair : (∀ s ∈ rest, ¬ s.id = r.id) ∧ (rest.map (·.id)).Nodup := by
      simpa using hnodup
    have hnodup' : (rest.map (·.id)).Nodup := hpair.2
    have hne : ∀ s ∈ rest, ¬ s.id = r.id := hpair.1
    by_cases hr : truthy r.admin_key
    · have hx' : x.db.projects = (done ++ [r]) ++ rest := by
        rw [hx]
        simp
      have hdisj' : ∀ s ∈ rest, ∀ d ∈ done ++ [r], d.id ≠ s.id := by
        intro s hs d hd
        rcases List.mem_append.mp hd with hd | hd
        · exact hdisj s (List.mem_cons_of_mem r hs) d hd
        · rw [List.mem_singleton.mp hd]
          exact fun he => hne s hs he.symm
      obtain ⟨t', hrun⟩ := ih (done ++ [r]) x hx' hdisj' hnodup'
      refine ⟨t', ?_⟩
      have hloop :
          projectBackfillLoop (allOkEnv gen)
            ((r :: rest).map fun s => (s.id, s.admin_key)) x =
          projectBackfillLoop (allOkEnv gen) (rest.map fun s => (s.id, s.admin_key)) x := by
        simp [projectBackfillLoop, hr]
      rw [hloop, hrun]
      simp [projectBackfillModel, hr]
    · have hr' : truthy r.admin_key = false := by simpa using hr
      have hdone_ne : ∀ d ∈ done, d.id ≠ r.id :=
        fun d hd => hdisj r (List.mem_cons_self r rest) d hd
      have hrest_ne : ∀ d ∈ rest, d.id ≠ r.id := hne
      have hupd : updateProjectKey x.db.projects r.id
            (gen project_admin_key_nbytes x.ctr) =
          done ++ ({ r with admin_key := some (gen project_admin_key_nbytes x.ctr) } :: rest) := by
        rw [hx]
        exact updateProjectKey_split done rest r _ hdone_ne hrest_ne
      obtain ⟨t', hrun⟩ := ih
        (done ++ [{ r with admin_key := some (gen project_admin_key_nbytes x.ctr) }])
        { x with
          db := { x.db with
            projects := done ++
              ({ r with admin_key := some (gen project_admin_key_nbytes x.ctr) } :: rest) },
          ctr := x.ctr + 1,
          tick := x.tick + 1 }
        (by simp)
        (by
          intro s hs d hd
          rcases List.mem_append.mp hd with hd | hd
          · exact hdisj s (List.mem_cons_of_mem r hs) d hd
          · rw [List.mem_singleton.mp hd]
            exact fun he => hne s hs he.symm)
        hnodup'
      refine ⟨t', ?_⟩
      have hloop :
          projectBackfillLoop (allOkEnv gen)
            ((r :: rest).map fun s => (s.id, s.admin_key)) x =
          projectBackfillLoop (allOkEnv gen) (rest.map fun s => (s.id, s.admin_key))
            { x with
              db := { x.db with
                projects := done ++
                  ({ r with admin_key := some (gen project_admin_key_nbytes x.ctr) } :: rest) },
              ctr := x.ctr + 1,
              tick := x.tick + 1 } := by
        simp [projectBackfillLoop, hr', prim, allOkEnv, hupd]
      rw [hloop, hrun]
      simp [projectBackfillModel, hr']

/-- An UPDATE keyed by an id no questionnaire row holds is the identity. -/
theorem updateQuestionnaireKey_not_mem {rows : List QuestionnaireRow} {qid : Nat} (g : String)
    (h : ∀ d ∈ rows, d.id ≠ qid) :
    updateQuestionnaireKey rows qid g = rows := by
  induction rows with
  | nil => rfl
  | cons a l ih =>
    have ha : ¬ (a.id = qid) := h a (List.mem_cons_self a l)
    have ih' := ih (fun d hd => h d (List.mem_cons_of_mem a hd))
    simp [updateQuestionnaireKey, ha] at ih' ⊢
    exact ih'

/-- `updateQuestionnaireKey` distributes over append. -/
theorem updateQuestionnaireKey_append (l₁ l₂ : List QuestionnaireRow) (qid : Nat) (g : String) :
    updateQuestionnaireKey (l₁ ++ l₂) qid g =
      updateQuestionnaireKey l₁ qid g ++ updateQuestionnaireKey l₂ qid g :=
  List.map_append _ _ _

/-- With unique ids, the UPDATE keyed by `r.id` rewrites exactly row `r`. -/
theorem updateQuestionnaireKey_split (done rest : List QuestionnaireRow)
    (r : QuestionnaireRow) (g : String)
    (hdone : ∀ d ∈ done, d.id ≠ r.id) (hrest : ∀ d ∈ rest, d.id ≠ r.id) :
    updateQuestionnaireKey (done ++ r :: rest) r.id g =
      done ++ { r with assignment_key := some g } :: rest := by
  rw [updateQuestionnaireKey_append, updateQuestionnaireKey_not_mem g hdone]
  show done ++ ((if r.id == r.id then { r with assignment_key := some g } else r) ::
    updateQuestionnaireKey rest r.id g) = _
  rw [updateQuestionnaireKey_not_mem g hrest]
  simp

/-- The questionnaire backfill model preserves the number of rows. -/
theorem questionnaireBackfillModel_length (gen : Nat → Nat → String)
    (rows : List QuestionnaireRow) :
    ∀ ctr, (questionnaireBackfillModel gen ctr rows).1.length = rows.length := by
  induction rows with
  | nil => intro ctr; rfl
  | cons r rest ih =>
    intro ctr
    by_cases hr : truthy r.assignment_key
    · simp [questionnaireBackfillModel, hr, ih]
    · simp [questionnaireBackfillModel, hr, ih]

/-- Needy-row count at index zero. -/
theorem questionnairesNeedyBefore_zero (rows : List QuestionnaireRow) :
    questionnairesNeedyBefore rows 0 = 0 := rfl

/-- Needy-row count past a truthy head. -/
theorem questionnairesNeedyBefore_cons_truthy {r0 : QuestionnaireRow}
    (rest : List QuestionnaireRow) (i : Nat) (h : truthy r0.assignment_key = true) :
    questionnairesNeedyBefore (r0 :: rest) (i + 1) = questionnairesNeedyBefore rest i := by
  simp [questionnairesNeedyBefore, h]

/-- Needy-row count past a needy head. -/
theorem questionnairesNeedyBefore_cons_needy {r0 : QuestionnaireRow}
    (rest : List QuestionnaireRow) (i : Nat) (h : truthy r0.assignment_key = false) :
    questionnairesNeedyBefore (r0 :: rest) (i + 1) =
      questionnairesNeedyBefore rest i + 1 := by
  simp [questionnairesNeedyBefore, h]

/-- Row-wise characterisation of the questionnaire backfill model. -/
theorem questionnaireBackfillModel_get? (gen : Nat → Nat → String)
    (rows : List QuestionnaireRow) :
    ∀ ctr i r, rows.get? i = some r →
      (questionnaireBackfillModel gen ctr rows).1.get? i =
        some (if truthy r.assignment_key then r
          else { r with assignment_key := some (gen questionnaire_assignment_key_nbytes (ctr + questionnairesNeedyBefore rows i)) }) := by
  induction rows with
  | nil => intro ctr i r h; cases h
  | cons r0 rest ih =>
    intro ctr i r h
    cases i with
    | zero =>
      have hr0 : r = r0 := by
        simpa using h.symm
      subst hr0
      by_cases hr : truthy r.assignment_key
      · simp [questionnaireBackfillModel, hr]
      · simp [questionnaireBackfillModel, hr, questionnairesNeedyBefore_zero]
    | succ i =>
      have h' : rest.get? i = some r := by simpa using h
      by_cases hr0 : truthy r0.assignment_key
      · have := ih ctr i r h'
        rw [questionnairesNeedyBefore_cons_truthy rest i hr0]
        simpa [questionnaireBackfillModel, hr0] using this
      · have hr0' : truthy r0.assignment_key = false := by simpa using hr0
        have := ih (ctr + 1) i r h'
        rw [questionnairesNeedyBefore_cons_needy rest i hr0']
        have harith : ctr + (questionnairesNeedyBefore rest i + 1) =
            ctr + 1 + questionnairesNeedyBefore rest i := by omega
        rw [harith]
        simpa [questionnaireBackfillModel, hr0'] using this

/-- On rows that all hold truthy keys the questionnaire backfill model is
the identity. -/
theorem questionnaireBackfillModel_all_truthy (gen : Nat → Nat → String)
    (rows : List QuestionnaireRow) :
    ∀ ctr, (∀ r ∈ rows, truthy r.assignment_key = true) →
      questionnaireBackfillModel gen ctr rows = (rows, ctr) := by
  induction rows with
  | nil => intro ctr _; rfl
  | cons r rest ih =>
    intro ctr h
    have hr : truthy r.assignment_key = true := h r (List.mem_cons_self r rest)
    have hrest := ih ctr (fun s hs => h s (List.mem_cons_of_mem r hs))
    simp [questionnaireBackfillModel, hr, hrest]

/-- When the supply yields non-empty tokens, every questionnaire row holds
a truthy key after the backfill model runs. -/
theorem questionnaireBackfillModel_truthy_after (gen : Nat → Nat → String)
    (rows : List QuestionnaireRow)
    (hgen : ∀ n, gen questionnaire_assignment_key_nbytes n ≠ "") :
    ∀ ctr r, r ∈ (questionnaireBackfillModel gen ctr rows).1 →
      truthy r.assignment_key = true := by
  induction rows with
  | nil => intro ctr r h; cases h
  | cons r0 rest ih =>
    intro ctr r h
    by_cases hr0 : truthy r0.assignment_key
    · rw [questionnaireBackfillModel] at h
      rw [if_pos hr0] at h
      rcases List.mem_cons.mp h with rfl | h
      · exact hr0
      · exact ih ctr r h
    · rw [questionnaireBackfillModel] at h
      rw [if_neg hr0] at h
      rcases List.mem_cons.mp h with rfl | h
      · simp [truthy, isEmpty_eq_false_of_ne (hgen ctr)]
      · exact ih (ctr + 1) r h

/-- On an all-truthy snapshot the questionnaire backfill loop does nothing
at all. -/
theorem questionnaireBackfillLoop_all_truthy (env : Env) (rows : List QuestionnaireRow)
    (x : Txn) (h : ∀ r ∈ rows, truthy r.assignment_key = true) :
    questionnaireBackfillLoop env (rows.map fun r => (r.id, r.assignment_key)) x = .ok x := by
  induction rows with
  | nil => rfl
  | cons r rest ih =>
    have hr : truthy r.assignment_key = true := h r (List.mem_cons_self r rest)
    have ihr := ih (fun s hs => h s (List.mem_cons_of_mem r hs))
    simpa [questionnaireBackfillLoop, hr] using ihr

/-- The questionnaire backfill loop equals the backfill model on the rows,
and touches nothing else of the transaction state but the tick. -/
theorem questionnaireBackfillLoop_split (gen : Nat → Nat → String)
    (todo : List QuestionnaireRow) :
    ∀ (done : List QuestionnaireRow) (x : Txn),
      x.db.questionnaires = done ++ todo →
      (∀ r ∈ todo, ∀ d ∈ done, d.id ≠ r.id) →
      (todo.map (·.id)).Nodup →
      ∃ tick',
        questionnaireBackfillLoop (allOkEnv gen)
            (todo.map fun r => (r.id, r.assignment_key)) x =
          .ok { x with
                db := { x.db with
                  questionnaires := done ++ (questionnaireBackfillModel gen x.ctr todo).1 },
                ctr := (questionnaireBackfillModel gen x.ctr todo).2,
                tick := tick' } := by
  induction todo with
  | nil =>
    intro done x hx _ _
    refine ⟨x.tick, ?_⟩
    have hx' : done ++ (questionnaireBackfillModel gen x.ctr []).1 = x.db.questionnaires := by
      rw [hx]
      rfl
    show Except.ok x = _
    rw [hx']
    rfl
  | cons r rest ih =>
    intro done x hx hdisj hnodup
    have hpair : (∀ s ∈ rest, ¬ s.id = r.id) ∧ (rest.map (·.id)).Nodup := by
      simpa using hnodup
    have hnodup' : (rest.map (·.id)).Nodup := hpair.2
    have hne : ∀ s ∈ rest, ¬ s.id = r.id := hpair.1
    by_cases hr : truthy r.assignment_key
    · have hx' : x.db.questionnaires = (done ++ [r]) ++ rest := by
        rw [hx]
        simp
      have hdisj' : ∀ s ∈ rest, ∀ d ∈ done ++ [r], d.id ≠ s.id := by
        intro s hs d hd
        rcases List.mem_append.mp hd with hd | hd
        · exact hdisj s (List.mem_cons_of_mem r hs) d hd
        · rw [List.mem_singleton.mp hd]
          exact fun he => hne s hs he.symm
      obtain ⟨t', hrun⟩ := ih (done ++ [r]) x hx' hdisj' hnodup'
      refine ⟨t', ?_⟩
      have hloop :
          questionnaireBackfillLoop (allOkEnv gen)
            ((r :: rest).map fun s => (s.id, s.assignment_key)) x =
          questionnaireBackfillLoop (allOkEnv gen)
            (rest.map fun s => (s.id, s.assignment_key)) x := by
        simp [questionnaireBackfillLoop, hr]
      rw [hloop, hrun]
      simp [questionnaireBackfillModel, hr]
    · have hr' : truthy r.assignment_key = false := by simpa using hr
      have hdone_ne : ∀ d ∈ done, d.id ≠ r.id :=
        fun d hd => hdisj r (List.mem_cons_self r rest) d hd
      have hrest_ne : ∀ d ∈ rest, d.id ≠ r.id := hne
      have hupd : updateQuestionnaireKey x.db.questionnaires r.id
            (gen questionnaire_assignment_key_nbytes x.ctr) =
          done ++ ({ r with assignment_key := some (gen questionnaire_assignment_key_nbytes x.ctr) } :: rest) := by
        rw [hx]
        exact updateQuestionnaireKey_split done rest r _ hdone_ne hrest_ne
      obtain ⟨t', hrun⟩ := ih
        (done ++ [{ r with assignment_key := some (gen questionnaire_assignment_key_nbytes x.ctr) }])
        { x with
          db := { x.db with
            questionnaires := done ++
              ({ r with assignment_key := some (gen questionnaire_assignment_key_nbytes x.ctr) } :: rest) },
          ctr := x.ctr + 1,
          tick := x.tick + 1 }
        (by simp)
        (by
          intro s hs d hd
          rcases List.mem_append.mp hd with hd | hd
          · exact hdisj s (List.mem_cons_of_mem r hs) d hd
          · rw [List.mem_singleton.mp hd]
            exact fun he => hne s hs he.symm)
        hnodup'
      refine ⟨t', ?_⟩
      have hloop :
          questionnaireBackfillLoop (allOkEnv gen)
            ((r :: rest).map fun s => (s.id, s.assignment_key)) x =
          questionnaireBackfillLoop (allOkEnv gen)
            (rest.map fun s => (s.id, s.assignment_key))
            { x with
              db := { x.db with
                questionnaires := done ++
                  ({ r with assignment_key := some (gen questionnaire_assignment_key_nbytes x.ctr) } :: rest) },
              ctr := x.ctr + 1,
              tick := x.tick + 1 } := by
        simp [questionnaireBackfillLoop, hr', prim, allOkEnv, hupd]
      rw [hloop, hrun]
      simp [questionnaireBackfillModel, hr']

/-- Claim C3: backfill exclusivity.  Over a fetched snapshot with unique
primary keys, each backfill loop assigns a freshly generated token (keyed
by the row's primary key) to exactly those rows whose token is null or the
empty string; every row already holding a non-empty token is returned
bit-for-bit unchanged; and — provided generated tokens are non-empty, as
`secrets.token_urlsafe` guarantees — running the loop again on its own
output changes nothing, for arbitrarily many further runs. -/
theorem backfill_exclusivity (gen : Nat → Nat → String) (x : Txn)
    (hp : (x.db.projects.map (·.id)).Nodup)
    (hq : (x.db.questionnaires.map (·.id)).Nodup)
    (hgen : ∀ nb n, gen nb n ≠ "") :
    (∃ x', projectBackfillLoop (allOkEnv gen)
        (x.db.projects.map fun r => (r.id, r.admin_key)) x = .ok x' ∧
      x'.db.questionnaires = x.db.questionnaires ∧
      x'.db.cat = x.db.cat ∧
      x'.structOps = x.structOps ∧
      x'.table_names = x.table_names ∧
      x'.column_cache = x.column_cache ∧
      x'.db.projects.length = x.db.projects.length ∧
      (∀ i r, x.db.projects.get? i = some r →
        x'.db.projects.get? i =
          some (if truthy r.admin_key then r
            else { r with admin_key := some (gen project_admin_key_nbytes (x.ctr + projectsNeedyBefore x.db.projects i)) })) ∧
      projectBackfillLoop (allOkEnv gen)
        (x'.db.projects.map fun r => (r.id, r.admin_key)) x' = .ok x') ∧
    (∃ y', questionnaireBackfillLoop (allOkEnv gen)
        (x.db.questionnaires.map fun r => (r.id, r.assignment_key)) x = .ok y' ∧
      y'.db.projects = x.db.projects ∧
      y'.db.cat = x.db.cat ∧
      y'.structOps = x.structOps ∧
      y'.table_names = x.table_names ∧
      y'.column_cache = x.column_cache ∧
      y'.db.questionnaires.length = x.db.questionnaires.length ∧
      (∀ i r, x.db.questionnaires.get? i = some r →
        y'.db.questionnaires.get? i =
          some (if truthy r.assignment_key then r
            else { r with assignment_key := some (gen questionnaire_assignment_key_nbytes (x.ctr + questionnairesNeedyBefore x.db.questionnaires i)) })) ∧
      questionnaireBackfillLoop (allOkEnv gen)
        (y'.db.questionnaires.map fun r => (r.id, r.assignment_key)) y' = .ok y') := by
  constructor
  · obtain ⟨t', hrun⟩ := projectBackfillLoop_split gen x.db.projects [] x
      (by simp) (fun r _ d hd => absurd hd (List.not_mem_nil d)) hp
    refine ⟨_, hrun, rfl, rfl, rfl, rfl, rfl, ?_, ?_, ?_⟩
    · show ([] ++ (projectBackfillModel gen x.ctr x.db.projects).1).length =
        x.db.projects.length
      simp [projectBackfillModel_length]
    · intro i r h
      show ([] ++ (projectBackfillModel gen x.ctr x.db.projects).1).get? i = _
      rw [List.nil_append]
      exact projectBackfillModel_get? gen x.db.projects x.ctr i r h
    · refine projectBackfillLoop_all_truthy _ _ _ ?_
      intro r hr
      have hr' : r ∈ (projectBackfillModel gen x.ctr x.db.projects).1 := by
        simpa using hr
      exact projectBackfillModel_truthy_after gen x.db.projects
        (fun n => hgen project_admin_key_nbytes n) x.ctr r hr'
  · obtain ⟨t', hrun⟩ := questionnaireBackfillLoop_split gen x.db.questionnaires [] x
      (by simp) (fun r _ d hd => absurd hd (List.not_mem_nil d)) hq
    refine ⟨_, hrun, rfl, rfl, rfl, rfl, rfl, ?_, ?_, ?_⟩
    · show ([] ++ (questionnaireBackfillModel gen x.ctr x.db.questionnaires).1).length =
        x.db.questionnaires.length
      simp [questionnaireBackfillModel_length]
    · intro i r h
      show ([] ++ (questionnaireBackfillModel gen x.ctr x.db.questionnaires).1).get? i = _
      rw [List.nil_append]
      exact questionnaireBackfillModel_get? gen x.db.questionnaires x.ctr i r h
    · refine questionnaireBackfillLoop_all_truthy _ _ _ ?_
      intro r hr
      have hr' : r ∈ (questionnaireBackfillModel gen x.ctr x.db.questionnaires).1 := by
        simpa using hr
      exact questionnaireBackfillModel_truthy_after gen x.db.questionnaires
        (fun n => hgen questionnaire_assignment_key_nbytes n) x.ctr r hr'

/-- Claim C3 witness: on a store holding a null key, a non-empty key and an
empty-string key, the backfill loops run and satisfy the contract. -/
theorem backfill_exclusivity_witness :
    (sampleBackfillTxn.db.projects.map (·.id)).Nodup ∧
    (sampleBackfillTxn.db.questionnaires.map (·.id)).Nodup ∧
    (∃ x', projectBackfillLoop (allOkEnv fun _ _ => "t")
      (sampleBackfillTxn.db.projects.map fun r => (r.id, r.admin_key)) sampleBackfillTxn =
        .ok x') := by
  refine ⟨by decide, by decide, ?_⟩
  obtain ⟨⟨x', h, _⟩, _⟩ := backfill_exclusivity (fun _ _ => "t") sampleBackfillTxn
    (by decide) (by decide) (fun nb n => by show ("t" : String) ≠ ""; decide)
  exact ⟨x', h⟩

/-- `create_all` preserves every existing table together with its exact
column list. -/
theorem create_allAux_preserves (ts : List (String × List String)) :
    ∀ (cat : Catalog) (n : Nat) (u : String), hasTable cat u = true →
      hasTable (create_allAux ts (cat, n)).1 u = true ∧
      getCols (create_allAux ts (cat, n)).1 u = getCols cat u := by
  induction ts with
  | nil => intro cat n u h; exact ⟨h, rfl⟩
  | cons tc rest ih =>
    intro cat n u h
    by_cases htc : hasTable cat tc.1 = true
    · have : create_allAux (tc :: rest) (cat, n) = create_allAux rest (cat, n) := by
        simp [create_allAux, htc]
      rw [this]
      exact ih cat n u h
    · have htc' : hasTable cat tc.1 = false := by simpa using htc
      have : create_allAux (tc :: rest) (cat, n) =
          create_allAux rest (createTable cat tc.1 tc.2, n + 1) := by
        simp [create_allAux, htc']
      rw [this]
      have h1 : hasTable (createTable cat tc.1 tc.2) u = true := by
        rw [hasTable_createTable]
        simp [h]
      obtain ⟨ha, hb⟩ := ih (createTable cat tc.1 tc.2) (n + 1) u h1
      exact ⟨ha, by rw [hb, getCols_createTable_of_hasTable tc.1 tc.2 h]⟩

/-- After `create_all`, every listed table exists. -/
theorem create_allAux_post (ts : List (String × List String)) :
    ∀ (cat : Catalog) (n : Nat) (u : String), u ∈ ts.map (·.1) →
      hasTable (create_allAux ts (cat, n)).1 u = true := by
  induction ts with
  | nil => intro cat n u h; cases h
  | cons tc rest ih =>
    intro cat n u h
    rcases List.mem_cons.mp h with h | h
    · by_cases htc : hasTable cat tc.1 = true
      · have heq : create_allAux (tc :: rest) (cat, n) = create_allAux rest (cat, n) := by
          simp [create_allAux, htc]
        rw [heq]
        rw [h]
        exact (create_allAux_preserves rest cat n tc.1 htc).1
      · have htc' : hasTable cat tc.1 = false := by simpa using htc
        have heq : create_allAux (tc :: rest) (cat, n) =
            create_allAux rest (createTable cat tc.1 tc.2, n + 1) := by
          simp [create_allAux, htc']
        rw [heq, h]
        have h1 : hasTable (createTable cat tc.1 tc.2) tc.1 = true := by
          rw [hasTable_createTable]
          simp
        exact (create_allAux_preserves rest _ (n + 1) tc.1 h1).1
    · by_cases htc : hasTable cat tc.1 = true
      · have heq : create_allAux (tc :: rest) (cat, n) = create_allAux rest (cat, n) := by
          simp [create_allAux, htc]
        rw [heq]
        exact ih cat n u h
      · have htc' : hasTable cat tc.1 = false := by simpa using htc
        have heq : create_allAux (tc :: rest) (cat, n) =
            create_allAux rest (createTable cat tc.1 tc.2, n + 1) := by
          simp [create_allAux, htc']
        rw [heq]
        exact ih _ (n + 1) u h

/-- When every listed table already exists, `create_all` is a no-op
performing zero create-table operations. -/
theorem create_allAux_noop (ts : List (String × List String)) :
    ∀ (cat : Catalog) (n : Nat), (∀ tc ∈ ts, hasTable cat tc.1 = true) →
      create_allAux ts (cat, n) = (cat, n) := by
  induction ts with
  | nil => intro cat n _; rfl
  | cons tc rest ih =>
    intro cat n h
    have htc : hasTable cat tc.1 = true := h tc (List.mem_cons_self tc rest)
    have heq : create_allAux (tc :: rest) (cat, n) = create_allAux rest (cat, n) := by
      simp [create_allAux, htc]
    rw [heq]
    exact ih cat n (fun d hd => h d (List.mem_cons_of_mem tc hd))

/-- Claim C2 counterexample: starting from an empty store, a bootstrap
whose upgrade transaction fails at its very first statement (the inspect)
still leaves the tables created by `create_all` visible — the store is not
as it was before the call, because `create_all` commits outside the upgrade
transaction. -/
theorem bootstrap_rollback_counterexample :
    (get_or_create_db_run ⟨fun _ _ => "", fun _ => false⟩
      { cat := [], projects := [], questionnaires := [] }).2.2 =
        .error .StorageUnavailable ∧
    (get_or_create_db_run ⟨fun _ _ => "", fun _ => false⟩
      { cat := [], projects := [], questionnaires := [] }).1 ≠
        { cat := [], projects := [], questionnaires := [] } := by
  constructor
  · rfl
  · decide

/-- Claim C2 (amended): the upgrade transaction itself is atomic — when any
of its steps (inspect, structural change, backfill) fails, every change it
made rolls back and the visible store is exactly the transaction-start
state: the pre-call store with the `create_all` tables added (committed
separately, outside the transaction), all rows unchanged, and every
pre-existing table keeping its exact column list. -/
theorem bootstrap_rollback_amended (env : Env) (db : DBState) (e : DbError)
    (h : (get_or_create_db_run env db).2.2 = .error e) :
    (get_or_create_db_run env db).1 = { db with cat := (create_all db.cat).1 } ∧
    (get_or_create_db_run env db).1.projects = db.projects ∧
    (get_or_create_db_run env db).1.questionnaires = db.questionnaires ∧
    (∀ t, hasTable db.cat t = true →
      hasTable (get_or_create_db_run env db).1.cat t = true ∧
      getCols (get_or_create_db_run env db).1.cat t = getCols db.cat t) := by
  have hvis : (get_or_create_db_run env db).1 = { db with cat := (create_all db.cat).1 } := by
    rw [get_or_create_db_run] at h ⊢
    rw [run_apply_schema_upgrades] at h ⊢
    cases hb : upgradeBody env (mkTxn { db with cat := (create_all db.cat).1 }) with
    | ok x => rw [hb] at h; cases h
    | error e2 => rfl
  refine ⟨hvis, by rw [hvis], by rw [hvis], ?_⟩
  intro t ht
  rw [hvis]
  show hasTable (create_all db.cat).1 t = true ∧ getCols (create_all db.cat).1 t = getCols db.cat t
  exact create_allAux_preserves targetSchema db.cat 0 t ht

/-- An empty column cache is trivially consistent. -/
theorem CacheOk_of_empty {x : Txn} (h : x.column_cache = []) : CacheOk x := by
  intro t l hget
  rw [h] at hget
  cases hget

/-- Membership in the inspected names is table existence. -/
theorem mem_tableNames_iff (cat : Catalog) (u : String) :
    u ∈ tableNames cat ↔ hasTable cat u = true := by
  induction cat with
  | nil => simp [tableNames, hasTable]
  | cons a l ih =>
    show u ∈ a.1 :: tableNames l ↔ _
    rw [List.mem_cons]
    constructor
    · rintro (h | h)
      · simp [hasTable, h.symm]
      · have := ih.mp h
        simp [hasTable, this]
    · intro h
      rw [hasTable] at h
      rcases Bool.or_eq_true_iff.mp h with h | h
      · exact Or.inl (Eq.symm (by simpa using h))
      · exact Or.inr (ih.mpr h)

/-- Boolean membership in the inspected names is table existence. -/
theorem tableNames_contains_iff (cat : Catalog) (u : String) :
    (tableNames cat).contains u = true ↔ hasTable cat u = true := by
  constructor
  · intro h
    exact (mem_tableNames_iff cat u).mp (List.elem_iff.mp h)
  · intro h
    exact List.elem_iff.mpr ((mem_tableNames_iff cat u).mpr h)

/-- Running a list of `ensure_column` calls in a consistent available run:
always succeeds, preserves the invariants, inspected names, rows and
counter, removes nothing, establishes every listed column whose table was
inspected, and performs no structural operation when nothing is missing. -/
theorem runEnsureColumns_ok (gen : Nat → Nat → String) (pairs : List (String × String)) :
    ∀ x : Txn, CacheOk x → TablesOk x →
    ∃ x', runEnsureColumns (allOkEnv gen) pairs x = .ok x' ∧
      CacheOk x' ∧ TablesOk x' ∧
      x'.table_names = x.table_names ∧
      x'.db.projects = x.db.projects ∧
      x'.db.questionnaires = x.db.questionnaires ∧
      x'.ctr = x.ctr ∧
      (∀ u, hasTable x'.db.cat u = hasTable x.db.cat u) ∧
      (∀ u d, hasColumn x.db.cat u d = true → hasColumn x'.db.cat u d = true) ∧
      (∀ tc ∈ pairs, x.table_names.contains tc.1 = true →
        hasColumn x'.db.cat tc.1 tc.2 = true) ∧
      ((∀ tc ∈ pairs, x.table_names.contains tc.1 = true →
          hasColumn x.db.cat tc.1 tc.2 = true) →
        x'.db.cat = x.db.cat ∧ x'.structOps = x.structOps) := by
  induction pairs with
  | nil =>
    intro x hc ht
    exact ⟨x, rfl, hc, ht, rfl, rfl, rfl, rfl, fun u => rfl, fun u d h => h,
      fun tc htc => absurd htc (List.not_mem_nil tc), fun _ => ⟨rfl, rfl⟩⟩
  | cons tc rest ih =>
    intro x hc ht
    obtain ⟨x1, hrun1, hc1, ht1, htn1, hp1, hq1, hctr1, htab1, hcol1, hpost1, hnoop1⟩ :=
      ensure_column_ok gen x tc.1 tc.2 hc ht
    obtain ⟨x2, hrun2, hc2, ht2, htn2, hp2, hq2, hctr2, htab2, hcol2, hpost2, hnoop2⟩ :=
      ih x1 hc1 ht1
    refine ⟨x2, ?_, hc2, ht2, htn2.trans htn1, hp2.trans hp1, hq2.trans hq1,
      hctr2.trans hctr1, ?_, ?_, ?_, ?_⟩
    · rw [runEnsureColumns, hrun1]
      exact hrun2
    · intro u
      rw [htab2 u, htab1 u]
    · intro u d h
      exact hcol2 u d (hcol1 u d h)
    · intro td htd hcon
      rcases List.mem_cons.mp htd with rfl | htd
      · exact hcol2 td.1 td.2 (hpost1 hcon)
      · rw [← htn1] at hcon
        exact hpost2 td htd hcon
    · intro hall
      have hhead := hnoop1 (fun hcon => hall tc (List.mem_cons_self tc rest) hcon)
      have hrest := hnoop2 (fun td htd hcon => by
        rw [hhead.1]
        exact hall td (List.mem_cons_of_mem tc htd) (by rw [htn1] at hcon; exact hcon))
      exact ⟨hrest.1.trans hhead.1, hrest.2.trans hhead.2⟩

/-- `createProjectTableStep` in an available run with an empty cache and an
exactly-inspected name set: succeeds, keeps the cache empty and the name
set exact, preserves rows and existing schema, ensures the `project` table,
and does nothing when it already exists. -/
theorem createProjectTableStep_ok (gen : Nat → Nat → String) (x : Txn)
    (hcache : x.column_cache = [])
    (hiff : ∀ u, x.table_names.contains u = true ↔ hasTable x.db.cat u = true) :
    ∃ x', createProjectTableStep (allOkEnv gen) x = .ok x' ∧
      x'.column_cache = [] ∧
      (∀ u, x'.table_names.contains u = true ↔ hasTable x'.db.cat u = true) ∧
      x'.db.projects = x.db.projects ∧
      x'.db.questionnaires = x.db.questionnaires ∧
      x'.ctr = x.ctr ∧
      (∀ u, hasTable x.db.cat u = true → hasTable x'.db.cat u = true) ∧
      hasTable x'.db.cat "project" = true ∧
      (∀ u d, hasColumn x.db.cat u d = true → hasColumn x'.db.cat u d = true) ∧
      (hasTable x.db.cat "project" = true →
        x'.db.cat = x.db.cat ∧ x'.structOps = x.structOps) := by
  by_cases hp : hasTable x.db.cat "project" = true
  · have hcon : x.table_names.contains "project" = true := (hiff "project").mpr hp
    refine ⟨x, ?_, hcache, hiff, rfl, rfl, rfl, fun u h => h, hp, fun u d h => h,
      fun _ => ⟨rfl, rfl⟩⟩
    simp [createProjectTableStep, hcon]
    intro h
    exact absurd (List.elem_iff.mp hcon) h
  · have hp' : hasTable x.db.cat "project" = false := by simpa using hp
    have hcon : x.table_names.contains "project" = false := by
      cases hcon : x.table_names.contains "project" with
      | false => rfl
      | true => exact absurd ((hiff "project").mp hcon) hp
    refine ⟨{ x with
        db := { x.db with cat := createTable x.db.cat "project" projectCols },
        table_names := x.table_names ++ ["project"],
        structOps := x.structOps + 1,
        tick := x.tick + 1 }, ?_, hcache, ?_, rfl, rfl, rfl, ?_, ?_, ?_, ?_⟩
    · simp [createProjectTableStep, hcon, prim, allOkEnv]
      intro h
      exact absurd ((hiff "project").mp (List.elem_iff.mpr h)) hp
    · intro u
      show (x.table_names ++ ["project"]).contains u = true ↔
        hasTable (createTable x.db.cat "project" projectCols) u = true
      rw [hasTable_createTable]
      constructor
      · intro h
        rcases List.mem_append.mp (List.elem_iff.mp h) with h | h
        · simp [(hiff u).mp (List.elem_iff.mpr h)]
        · simp [List.mem_singleton.mp h]
      · intro h
        rcases Bool.or_eq_true_iff.mp h with h | h
        · exact List.elem_iff.mpr (List.mem_append.mpr (Or.inl
            (List.elem_iff.mp ((hiff u).mpr h))))
        · refine List.elem_iff.mpr (List.mem_append.mpr (Or.inr ?_))
          simp [Eq.symm (by simpa using h : "project" = u)]
    · intro u h
      rw [hasTable_createTable]
      simp [h]
    · show hasTable (createTable x.db.cat "project" projectCols) "project" = true
      rw [hasTable_createTable]
      simp
    · intro u d h
      by_cases htab : hasTable x.db.cat u = true
      · show hasColumn (createTable x.db.cat "project" projectCols) u d = true
        rw [hasColumn, getCols_createTable_of_hasTable _ _ htab]
        exact h
      · have htab' : hasTable x.db.cat u = false := by simpa using htab
        rw [hasColumn, getCols_of_not_hasTable htab'] at h
        cases h
    · intro hcontra
      rw [hcontra] at hp'
      cases hp'

/-- An always-available project backfill loop run succeeds and touches only
the project rows, counter and tick. -/
theorem projectBackfillLoop_ok (gen : Nat → Nat → String)
    (fetched : List (Nat × Option String)) :
    ∀ x : Txn, ∃ x', projectBackfillLoop (allOkEnv gen) fetched x = .ok x' ∧
      x'.db.cat = x.db.cat ∧
      x'.db.questionnaires = x.db.questionnaires ∧
      x'.structOps = x.structOps ∧
      x'.table_names = x.table_names ∧
      x'.column_cache = x.column_cache := by
  induction fetched with
  | nil => intro x; exact ⟨x, rfl, rfl, rfl, rfl, rfl, rfl⟩
  | cons p rest ih =>
    intro x
    by_cases hk : truthy p.2 = true
    · obtain ⟨x', hrun, h1, h2, h3, h4, h5⟩ := ih x
      refine ⟨x', ?_, h1, h2, h3, h4, h5⟩
      show projectBackfillLoop (allOkEnv gen) ((p.1, p.2) :: rest) x = .ok x'
      rw [projectBackfillLoop, if_pos hk]
      exact hrun
    · have hk' : truthy p.2 = false := by simpa using hk
      obtain ⟨x', hrun, h1, h2, h3, h4, h5⟩ := ih
        { x with
          db := { x.db with
            projects := updateProjectKey x.db.projects p.1
              (gen project_admin_key_nbytes x.ctr) },
          ctr := x.ctr + 1,
          tick := x.tick + 1 }
      refine ⟨x', ?_, h1, h2, h3, h4, h5⟩
      show projectBackfillLoop (allOkEnv gen) ((p.1, p.2) :: rest) x = .ok x'
      rw [projectBackfillLoop, if_neg (by simp [hk'])]
      exact hrun

/-- An always-available questionnaire backfill loop run succeeds and
touches only the questionnaire rows, counter and tick. -/
theorem questionnaireBackfillLoop_ok (gen : Nat → Nat → String)
    (fetched : List (Nat × Option String)) :
    ∀ x : Txn, ∃ x', questionnaireBackfillLoop (allOkEnv gen) fetched x = .ok x' ∧
      x'.db.cat = x.db.cat ∧
      x'.db.projects = x.db.projects ∧
      x'.structOps = x.structOps ∧
      x'.table_names = x.table_names ∧
      x'.column_cache = x.column_cache := by
  induction fetched with
  | nil => intro x; exact ⟨x, rfl, rfl, rfl, rfl, rfl, rfl⟩
  | cons p rest ih =>
    intro x
    by_cases hk : truthy p.2 = true
    · obtain ⟨x', hrun, h1, h2, h3, h4, h5⟩ := ih x
      refine ⟨x', ?_, h1, h2, h3, h4, h5⟩
      show questionnaireBackfillLoop (allOkEnv gen) ((p.1, p.2) :: rest) x = .ok x'
      rw [questionnaireBackfillLoop, if_pos hk]
      exact hrun
    · have hk' : truthy p.2 = false := by simpa using hk
      obtain ⟨x', hrun, h1, h2, h3, h4, h5⟩ := ih
        { x with
          db := { x.db with
            questionnaires := updateQuestionnaireKey x.db.questionnaires p.1
              (gen questionnaire_assignment_key_nbytes x.ctr) },
          ctr := x.ctr + 1,
          tick := x.tick + 1 }
      refine ⟨x', ?_, h1, h2, h3, h4, h5⟩
      show questionnaireBackfillLoop (allOkEnv gen) ((p.1, p.2) :: rest) x = .ok x'
      rw [questionnaireBackfillLoop, if_neg (by simp [hk'])]
      exact hrun

/-- `backfillProjects` succeeds when the table and key column exist, and
touches only project rows, counter and tick. -/
theorem backfillProjects_ok (gen : Nat → Nat → String) (x : Txn)
    (htab : hasTable x.db.cat "project" = true)
    (hcol : hasColumn x.db.cat "project" "admin_key" = true) :
    ∃ x', backfillProjects (allOkEnv gen) x = .ok x' ∧
      x'.db.cat = x.db.cat ∧
      x'.db.questionnaires = x.db.questionnaires ∧
      x'.structOps = x.structOps ∧
      x'.table_names = x.table_names ∧
      x'.column_cache = x.column_cache := by
  obtain ⟨x', hrun, h1, h2, h3, h4, h5⟩ :=
    projectBackfillLoop_ok gen (x.db.projects.map fun r => (r.id, r.admin_key))
      { x with tick := x.tick + 1 }
  refine ⟨x', ?_, h1, h2, h3, h4, h5⟩
  rw [backfillProjects, prim_allOk]
  show (if !hasTable x.db.cat "project" then Except.error DbError.NoSuchTable
    else if !hasColumn x.db.cat "project" "admin_key" then Except.error DbError.NoSuchColumn
    else projectBackfillLoop (allOkEnv gen)
      (x.db.projects.map fun r => (r.id, r.admin_key)) { x with tick := x.tick + 1 }) = _
  rw [htab, hcol]
  exact hrun

/-- `backfillQuestionnaires` succeeds when the table and key column exist,
and touches only questionnaire rows, counter and tick. -/
theorem backfillQuestionnaires_ok (gen : Nat → Nat → String) (x : Txn)
    (htab : hasTable x.db.cat "questionnaire" = true)
    (hcol : hasColumn x.db.cat "questionnaire" "assignment_key" = true) :
    ∃ x', backfillQuestionnaires (allOkEnv gen) x = .ok x' ∧
      x'.db.cat = x.db.cat ∧
      x'.db.projects = x.db.projects ∧
      x'.structOps = x.structOps ∧
      x'.table_names = x.table_names ∧
      x'.column_cache = x.column_cache := by
  obtain ⟨x', hrun, h1, h2, h3, h4, h5⟩ :=
    questionnaireBackfillLoop_ok gen
      (x.db.questionnaires.map fun r => (r.id, r.assignment_key))
      { x with tick := x.tick + 1 }
  refine ⟨x', ?_, h1, h2, h3, h4, h5⟩
  rw [backfillQuestionnaires, prim_allOk]
  show (if !hasTable x.db.cat "questionnaire" then Except.error DbError.NoSuchTable
    else if !hasColumn x.db.cat "questionnaire" "assignment_key" then
      Except.error DbError.NoSuchColumn
    else questionnaireBackfillLoop (allOkEnv gen)
      (x.db.questionnaires.map fun r => (r.id, r.assignment_key))
      { x with tick := x.tick + 1 }) = _
  rw [htab, hcol]
  exact hrun

/-- Composes one successful pass through every stage of the upgrade
transaction body. -/
theorem upgradeBody_eq_ok (env : Env) (x x1 x3 x4 x5 x6 : Txn)
    (h1 : prim env x = .ok x1)
    (h3 : createProjectTableStep env
      { x1 with table_names := tableNames x1.db.cat } = .ok x3)
    (h4 : runEnsureColumns env ensuredColumns x3 = .ok x4)
    (hguard : x4.table_names.contains "project" = true)
    (h5 : backfillProjects env x4 = .ok x5)
    (h6 : backfillQuestionnaires env x5 = .ok x6) :
    upgradeBody env x = .ok x6 := by
  rw [upgradeBody, h1]
  show (match createProjectTableStep env
      { x1 with table_names := tableNames x1.db.cat } with
    | Except.error e => (Except.error e : Except DbError Txn)
    | Except.ok x3 =>
      match runEnsureColumns env ensuredColumns x3 with
      | Except.error e => Except.error e
      | Except.ok x4 =>
        if !(x4.table_names.contains "project") then Except.ok x4
        else
          match backfillProjects env x4 with
          | Except.error e => Except.error e
          | Except.ok x5 => backfillQuestionnaires env x5) = Except.ok x6
  rw [h3]
  show (match runEnsureColumns env ensuredColumns x3 with
    | Except.error e => (Except.error e : Except DbError Txn)
    | Except.ok x4 =>
      if !(x4.table_names.contains "project") then Except.ok x4
      else
        match backfillProjects env x4 with
        | Except.error e => Except.error e
        | Except.ok x5 => backfillQuestionnaires env x5) = Except.ok x6
  rw [h4]
  show (if !(x4.table_names.contains "project") then (Except.ok x4 : Except DbError Txn)
    else
      match backfillProjects env x4 with
      | Except.error e => Except.error e
      | Except.ok x5 => backfillQuestionnaires env x5) = Except.ok x6
  rw [hguard]
  show (match backfillProjects env x4 with
    | Except.error e => (Except.error e : Except DbError Txn)
    | Except.ok x5 => backfillQuestionnaires env x5) = Except.ok x6
  rw [h5]
  exact h6

/-- The upgrade transaction body always succeeds in an available fault-free
run over a store whose `questionnaire` table exists (as `create_all`
guarantees); afterwards, no table has been lost, the `project` table
exists, and every ensured column exists on every ensured table that was
present (or was the created `project` table). -/
theorem upgradeBody_ok (gen : Nat → Nat → String) (x : Txn)
    (hcache : x.column_cache = [])
    (hquest : hasTable x.db.cat "questionnaire" = true) :
    ∃ x', upgradeBody (allOkEnv gen) x = .ok x' ∧
      (∀ u, hasTable x.db.cat u = true → hasTable x'.db.cat u = true) ∧
      hasTable x'.db.cat "project" = true ∧
      (∀ tc ∈ ensuredColumns, (hasTable x.db.cat tc.1 = true ∨ tc.1 = "project") →
        hasColumn x'.db.cat tc.1 tc.2 = true) := by
  have hcache2 : ({ { x with tick := x.tick + 1 } with
      table_names := tableNames ({ x with tick := x.tick + 1 } : Txn).db.cat } : Txn).column_cache = [] := hcache
  have hiff2 : ∀ u, ({ { x with tick := x.tick + 1 } with
        table_names := tableNames ({ x with tick := x.tick + 1 } : Txn).db.cat } : Txn).table_names.contains u = true ↔
      hasTable ({ { x with tick := x.tick + 1 } with
        table_names := tableNames ({ x with tick := x.tick + 1 } : Txn).db.cat } : Txn).db.cat u = true :=
    fun u => tableNames_contains_iff x.db.cat u
  obtain ⟨x3, h3run, h3cache, h3iff, h3p, h3q, h3ctr, h3tabmono, h3proj, h3colmono, h3noop⟩ :=
    createProjectTableStep_ok gen _ hcache2 hiff2
  obtain ⟨x4, h4run, h4c, h4t, h4tn, h4p, h4q, h4ctr, h4tab, h4col, h4post, h4noop⟩ :=
    runEnsureColumns_ok gen ensuredColumns x3 (CacheOk_of_empty h3cache)
      (fun u hu => (h3iff u).mp hu)
  have hguard : x4.table_names.contains "project" = true := by
    rw [h4tn]
    exact (h3iff "project").mpr h3proj
  have hptab4 : hasTable x4.db.cat "project" = true := by
    rw [h4tab]
    exact h3proj
  have hpcol4 : hasColumn x4.db.cat "project" "admin_key" = true :=
    h4post ("project", "admin_key") (by decide) ((h3iff "project").mpr h3proj)
  obtain ⟨x5, h5run, h5cat, h5q, h5ops, h5tn, h5cc⟩ := backfillProjects_ok gen x4 hptab4 hpcol4
  have hqtab3 : hasTable x3.db.cat "questionnaire" = true := h3tabmono "questionnaire" hquest
  have hqtab5 : hasTable x5.db.cat "questionnaire" = true := by
    rw [h5cat, h4tab]
    exact hqtab3
  have hqcol5 : hasColumn x5.db.cat "questionnaire" "assignment_key" = true := by
    rw [h5cat]
    exact h4post ("questionnaire", "assignment_key") (by decide) ((h3iff _).mpr hqtab3)
  obtain ⟨x6, h6run, h6cat, h6p, h6ops, h6tn, h6cc⟩ :=
    backfillQuestionnaires_ok gen x5 hqtab5 hqcol5
  refine ⟨x6, upgradeBody_eq_ok (allOkEnv gen) x _ x3 x4 x5 x6 (prim_allOk gen x)
    h3run h4run hguard h5run h6run, ?_, ?_, ?_⟩
  · intro u hu
    rw [h6cat, h5cat, h4tab]
    exact h3tabmono u hu
  · rw [h6cat, h5cat, h4tab]
    exact h3proj
  · intro tc htc hsrc
    rw [h6cat, h5cat]
    refine h4post tc htc ((h3iff tc.1).mpr ?_)
    rcases hsrc with hsrc | hsrc
    · exact h3tabmono tc.1 hsrc
    · rw [hsrc]
      exact h3proj

/-- When the `project` and `questionnaire` tables and every ensured column
already exist, the upgrade transaction body changes no schema and performs
zero structural operations. -/
theorem upgradeBody_noop (gen : Nat → Nat → String) (x : Txn)
    (hcache : x.column_cache = [])
    (hproj : hasTable x.db.cat "project" = true)
    (hquest : hasTable x.db.cat "questionnaire" = true)
    (hcols : ∀ tc ∈ ensuredColumns, hasColumn x.db.cat tc.1 tc.2 = true) :
    ∃ x', upgradeBody (allOkEnv gen) x = .ok x' ∧
      x'.db.cat = x.db.cat ∧ x'.structOps = x.structOps := by
  have hcache2 : ({ { x with tick := x.tick + 1 } with
      table_names := tableNames ({ x with tick := x.tick + 1 } : Txn).db.cat } : Txn).column_cache = [] := hcache
  have hiff2 : ∀ u, ({ { x with tick := x.tick + 1 } with
        table_names := tableNames ({ x with tick := x.tick + 1 } : Txn).db.cat } : Txn).table_names.contains u = true ↔
      hasTable ({ { x with tick := x.tick + 1 } with
        table_names := tableNames ({ x with tick := x.tick + 1 } : Txn).db.cat } : Txn).db.cat u = true :=
    fun u => tableNames_contains_iff x.db.cat u
  obtain ⟨x3, h3run, h3cache, h3iff, h3p, h3q, h3ctr, h3tabmono, h3proj, h3colmono, h3noop⟩ :=
    createProjectTableStep_ok gen _ hcache2 hiff2
  obtain ⟨h3cat, h3ops⟩ := h3noop hproj
  obtain ⟨x4, h4run, h4c, h4t, h4tn, h4p, h4q, h4ctr, h4tab, h4col, h4post, h4noop⟩ :=
    runEnsureColumns_ok gen ensuredColumns x3 (CacheOk_of_empty h3cache)
      (fun u hu => (h3iff u).mp hu)
  obtain ⟨h4cat, h4ops⟩ := h4noop (fun tc htc _ => by
    rw [h3cat]
    exact hcols tc htc)
  have hguard : x4.table_names.contains "project" = true := by
    rw [h4tn]
    exact (h3iff "project").mpr h3proj
  have hptab4 : hasTable x4.db.cat "project" = true := by
    rw [h4tab]
    exact h3proj
  have hpcol4 : hasColumn x4.db.cat "project" "admin_key" = true := by
    rw [h4cat, h3cat]
    exact hcols ("project", "admin_key") (by decide)
  obtain ⟨x5, h5run, h5cat, h5q, h5ops, h5tn, h5cc⟩ := backfillProjects_ok gen x4 hptab4 hpcol4
  have hqtab5 : hasTable x5.db.cat "questionnaire" = true := by
    rw [h5cat, h4tab]
    exact h3tabmono "questionnaire" hquest
  have hqcol5 : hasColumn x5.db.cat "questionnaire" "assignment_key" = true := by
    rw [h5cat, h4cat, h3cat]
    exact hcols ("questionnaire", "assignment_key") (by decide)
  obtain ⟨x6, h6run, h6cat, h6p, h6ops, h6tn, h6cc⟩ :=
    backfillQuestionnaires_ok gen x5 hqtab5 hqcol5
  refine ⟨x6, upgradeBody_eq_ok (allOkEnv gen) x _ x3 x4 x5 x6 (prim_allOk gen x)
    h3run h4run hguard h5run h6run, ?_, ?_⟩
  · rw [h6cat, h5cat, h4cat, h3cat]
  · rw [h6ops, h5ops, h4ops, h3ops]

/-- Claim C4: bootstrap idempotence.  For every store, a fault-free
`get_or_create_db` run succeeds, and running it again on the resulting
store succeeds with an identical live catalog (same tables, same columns
per table) and performs zero structural operations: `create_all` creates
no table and the upgrade transaction executes no create-table or
add-column statement. -/
theorem bootstrap_idempotent (gen : Nat → Nat → String) (db : DBState) :
    ∃ x1, (get_or_create_db_run (allOkEnv gen) db).2.2 = .ok x1 ∧
    ∃ x2, (get_or_create_db_run (allOkEnv gen)
        (get_or_create_db_run (allOkEnv gen) db).1).2.2 = .ok x2 ∧
      (get_or_create_db_run (allOkEnv gen)
        (get_or_create_db_run (allOkEnv gen) db).1).1.cat =
        (get_or_create_db_run (allOkEnv gen) db).1.cat ∧
      (get_or_create_db_run (allOkEnv gen)
        (get_or_create_db_run (allOkEnv gen) db).1).2.1 = 0 ∧
      x2.structOps = 0 := by
  have hq1 : hasTable
      (mkTxn { db with cat := (create_all db.cat).1 }).db.cat "questionnaire" = true :=
    create_allAux_post targetSchema db.cat 0 "questionnaire" (by decide)
  obtain ⟨x1, h1run, h1mono, h1proj, h1post⟩ :=
    upgradeBody_ok gen (mkTxn { db with cat := (create_all db.cat).1 }) rfl hq1
  have hrun1 : get_or_create_db_run (allOkEnv gen) db =
      (x1.db, (create_all db.cat).2, .ok x1) := by
    rw [get_or_create_db_run, run_apply_schema_upgrades, h1run]
  have htabs1 : ∀ tc ∈ targetSchema, hasTable x1.db.cat tc.1 = true := by
    intro tc htc
    exact h1mono tc.1 (create_allAux_post targetSchema db.cat 0 tc.1
      (List.mem_map_of_mem (·.1) htc))
  have hsub : ∀ tc ∈ ensuredColumns, tc.1 ∈ targetSchema.map (·.1) := by decide
  have hcols1 : ∀ tc ∈ ensuredColumns, hasColumn x1.db.cat tc.1 tc.2 = true := by
    intro tc htc
    exact h1post tc htc
      (Or.inl (create_allAux_post targetSchema db.cat 0 tc.1 (hsub tc htc)))
  have hquest1 : hasTable x1.db.cat "questionnaire" = true := h1mono _ hq1
  have hca2 : create_all x1.db.cat = (x1.db.cat, 0) :=
    create_allAux_noop targetSchema x1.db.cat 0 htabs1
  have hc1 : (create_all x1.db.cat).1 = x1.db.cat := by rw [hca2]
  obtain ⟨x2, h2run, h2cat, h2ops⟩ := upgradeBody_noop gen
    (mkTxn { x1.db with cat := (create_all x1.db.cat).1 }) rfl
    (by
      show hasTable (create_all x1.db.cat).1 "project" = true
      rw [hc1]
      exact h1proj)
    (by
      show hasTable (create_all x1.db.cat).1 "questionnaire" = true
      rw [hc1]
      exact hquest1)
    (by
      intro tc htc
      show hasColumn (create_all x1.db.cat).1 tc.1 tc.2 = true
      rw [hc1]
      exact hcols1 tc htc)
  have hrun2 : get_or_create_db_run (allOkEnv gen) x1.db =
      (x2.db, (create_all x1.db.cat).2, .ok x2) := by
    rw [get_or_create_db_run, run_apply_schema_upgrades, h2run]
  refine ⟨x1, by rw [hrun1], x2, ?_, ?_, ?_, ?_⟩
  · rw [hrun1]
    show (get_or_create_db_run (allOkEnv gen) x1.db).2.2 = .ok x2
    rw [hrun2]
  · rw [hrun1]
    show (get_or_create_db_run (allOkEnv gen) x1.db).1.cat = x1.db.cat
    rw [hrun2]
    show x2.db.cat = x1.db.cat
    rw [h2cat]
    exact hc1
  · rw [hrun1]
    show (get_or_create_db_run (allOkEnv gen) x1.db).2.1 = 0
    rw [hrun2]
    show (create_all x1.db.cat).2 = 0
    rw [hca2]
  · rw [h2ops]
    rfl

/-- Claim C2 amended-theorem witness: the failing bootstrap of the
counterexample satisfies the rollback contract. -/
theorem bootstrap_rollback_amended_witness :
    (get_or_create_db_run ⟨fun _ _ => "", fun _ => false⟩
      { cat := [], projects := [], questionnaires := [] }).2.2 =
        .error .StorageUnavailable ∧
    (get_or_create_db_run ⟨fun _ _ => "", fun _ => false⟩
      { cat := [], projects := [], questionnaires := [] }).1 =
      { cat := (create_all []).1, projects := [], questionnaires := [] } :=
  ⟨rfl, (bootstrap_rollback_amended ⟨fun _ _ => "", fun _ => false⟩
    { cat := [], projects := [], questionnaires := [] } .StorageUnavailable rfl).1⟩

end EDiary
